import Mathlib

/-!
# Shepherd (`shep`): worktree provisioning

A shallow embedding of `src/main.go`.

* Go strings are modelled as their sequence of runes (`Text`).
* The regular expressions of `setupEnvironment` are all of the two shapes
  `(?m)^LIT.*$` and `(?m)^LIT`; with the multi-line flag `^` holds at the
  start of the text and after every line feed, `$` at the end of the text and
  before every line feed, and `.` is any rune but the line feed, so a match is
  a whole line (or the literal at the head of a line) that begins with `LIT`.
* `Regexp.ReplaceAllString` expands its replacement as a template (`$name`,
  `${name}`, `$$`); the expansion is modelled after `regexp.expand`.
* Processes, the filesystem and standard input are an explicit `World` of
  outcomes; commands return the list of effects they performed.
-/

namespace Shepherd

/-- Text of a Go string: its runes in order. -/
abbrev Text := List Char

/-! ## Lines of a text -/

/-- Pieces of a text between line feeds: `strings.Split(s, "\n")`. -/
def splitLines : Text → List Text
  | [] => [[]]
  | c :: cs =>
    if c = '\n' then [] :: splitLines cs
    else
      match splitLines cs with
      | [] => [[c]]
      | l :: ls => (c :: l) :: ls

/-- Lines put back together with a line feed between neighbours. -/
def joinLines : List Text → Text
  | [] => []
  | [l] => l
  | l :: l' :: ls => l ++ '\n' :: joinLines (l' :: ls)

/-! ## Replacement templates (`regexp.expand`) -/

/-- Runes allowed in a template variable name:
`unicode.IsLetter(r) || unicode.IsDigit(r) || r == '_'`. The ASCII range is
fixed; `uni` stands for the letter-or-digit class of the Unicode tables on the
runes above it. -/
def isNameRune (uni : Char → Bool) (c : Char) : Bool :=
  c = '_' || (if c.toNat < 128 then c.isAlphanum else uni c)

/-- Number denoted by a variable name, `none` for Go's `-1`: all ASCII digits,
below the overflow guard, no leading zero. -/
def parseNum (name : Text) : Option Nat :=
  let num := name.foldl
    (fun acc c =>
      match acc with
      | none => none
      | some n =>
        if c < '0' || '9' < c || 100000000 ≤ n then none
        else some (n * 10 + (c.toNat - 48)))
    (some 0)
  if name.head? = some '0' ∧ 1 < name.length then none else num

/-- Leading `name` or `{name}` of the text after a `$` (`regexp.extract`):
the name, its number and how many runes the variable takes; `none` when
malformed (empty name or missing closing brace). -/
def extract (uni : Char → Bool) (str : Text) : Option (Text × Option Nat × Nat) :=
  let brace := str.head? = some '{'
  let body := if brace then str.tail else str
  let name := body.takeWhile (isNameRune uni)
  if name = [] then none
  else if brace ∧ (body.drop name.length).head? ≠ some '}' then none
  else some (name, parseNum name, name.length + (if brace then 2 else 0))

/-- Template expansion with a match that has no capture group (`nmatch = 2`):
`$0`/`${0}` is the matched text `m`, every other variable is empty, `$$` is a
dollar sign, a malformed `$` stays. The first argument counts the template
runes already consumed by the variable just expanded. -/
def expandGo (uni : Char → Bool) (m : Text) : Nat → Text → Text
  | _, [] => []
  | skip + 1, _ :: t => expandGo uni m skip t
  | 0, c :: t =>
    if c = '$' then
      if t.head? = some '$' then '$' :: expandGo uni m 1 t
      else
        match extract uni t with
        | none => '$' :: expandGo uni m 0 t
        | some (_, num, consumed) =>
          (if num = some 0 then m else []) ++ expandGo uni m consumed t
    else c :: expandGo uni m 0 t

/-- Expansion of `template` for the matched text `m`. -/
def expand (uni : Char → Bool) (template m : Text) : Text :=
  expandGo uni m 0 template

/-! ## The regular expressions of `setupEnvironment` -/

/-- A compiled pattern `(?m)^LIT.*$` (`toEol = true`) or `(?m)^LIT`
(`toEol = false`). -/
structure LineRegex where
  lit : Text
  toEol : Bool

namespace LineRegex

/-- Text matched on a line known to begin with the literal. -/
def matched (re : LineRegex) (line : Text) : Text :=
  if re.toEol then line else re.lit

/-- One line after replacement of its match, if it has one. -/
def replaceLine (uni : Char → Bool) (re : LineRegex) (repl line : Text) : Text :=
  if re.lit.isPrefixOf line then
    expand uni repl (re.matched line) ++ line.drop (re.matched line).length
  else line

/-- Model of `re.MatchString(s)`: some line begins with the literal. -/
def matchString (re : LineRegex) (s : Text) : Bool :=
  (splitLines s).any fun l => re.lit.isPrefixOf l

/-- Model of `re.ReplaceAllString(src, repl)`: every match replaced by the expanded
template, the text between matches copied. -/
def replaceAllString (uni : Char → Bool) (re : LineRegex) (src repl : Text) : Text :=
  joinLines ((splitLines src).map (re.replaceLine uni repl))

end LineRegex

def appURLRegex : LineRegex := ⟨"APP_URL=".toList, true⟩
def dbConnRegex : LineRegex := ⟨"DB_CONNECTION=".toList, true⟩
def dbDatabaseRegex : LineRegex := ⟨"DB_DATABASE=".toList, true⟩
def dbHostRegex : LineRegex := ⟨"DB_HOST=".toList, false⟩
def dbPortRegex : LineRegex := ⟨"DB_PORT=".toList, false⟩
def dbUserRegex : LineRegex := ⟨"DB_USERNAME=".toList, false⟩
def dbPassRegex : LineRegex := ⟨"DB_PASSWORD=".toList, false⟩

/-- One replace-or-append rule of `setupEnvironment`:
`if re.MatchString(c) { c = re.ReplaceAllString(c, line) } else { c += "\n" + line }`. -/
def replaceOrAppend (uni : Char → Bool) (re : LineRegex) (line envContent : Text) : Text :=
  if re.matchString envContent then re.replaceAllString uni envContent line
  else envContent ++ '\n' :: line

/-- The patch of `setupEnvironment` (lines 225-257): `envContent` as written
back to `.env`, for the URL `appURL` and the database file `dbPath`. -/
def patchEnv (uni : Char → Bool) (appURL dbPath envContent : Text) : Text :=
  let c := replaceOrAppend uni appURLRegex ("APP_URL=".toList ++ appURL) envContent
  let c := replaceOrAppend uni dbConnRegex "DB_CONNECTION=sqlite".toList c
  let c := replaceOrAppend uni dbDatabaseRegex ("DB_DATABASE=".toList ++ dbPath) c
  let c := dbHostRegex.replaceAllString uni c "#DB_HOST=".toList
  let c := dbPortRegex.replaceAllString uni c "#DB_PORT=".toList
  let c := dbUserRegex.replaceAllString uni c "#DB_USERNAME=".toList
  dbPassRegex.replaceAllString uni c "#DB_PASSWORD=".toList

/-! ## Site names -/

/-- Model of `strings.SplitN(s, ".", 2)`: the text before the first dot and, when there
is a dot, everything after it. -/
def splitN2 (s : Text) : List Text :=
  match s.dropWhile (· ≠ '.') with
  | [] => [s]
  | _ :: suffix => [s.takeWhile (· ≠ '.'), suffix]

/-- The pure core of `getHerdSiteName`: the site name for the repository
folder name `repoName` and `branch`. -/
def herdSiteName (repoName branch : Text) : Text :=
  let parts := splitN2 repoName
  let base := parts.headD []
  if 1 < parts.length then
    base ++ '-' :: branch ++ '.' :: parts.getD 1 []
  else
    repoName ++ '-' :: branch

/-- The site URL, `fmt.Sprintf("https://%s.test", siteName)`. -/
def appURLOf (siteName : Text) : Text :=
  "https://".toList ++ siteName ++ ".test".toList

/-! ## The patch seen line by line -/

/-- Line view of a replace-or-append rule: every line replaced where it
matches, and the new line appended when no line matched. -/
def ruleLines (uni : Char → Bool) (re : LineRegex) (line : Text) (ls : List Text) :
    List Text :=
  ls.map (re.replaceLine uni line) ++
    (if ls.any (fun l => re.lit.isPrefixOf l) then [] else [line])

/-- What the seven rules, in their order, make of one line. -/
def patchLine (uni : Char → Bool) (appURL dbPath : Text) (l : Text) : Text :=
  let l := appURLRegex.replaceLine uni ("APP_URL=".toList ++ appURL) l
  let l := dbConnRegex.replaceLine uni "DB_CONNECTION=sqlite".toList l
  let l := dbDatabaseRegex.replaceLine uni ("DB_DATABASE=".toList ++ dbPath) l
  let l := dbHostRegex.replaceLine uni "#DB_HOST=".toList l
  let l := dbPortRegex.replaceLine uni "#DB_PORT=".toList l
  let l := dbUserRegex.replaceLine uni "#DB_USERNAME=".toList l
  dbPassRegex.replaceLine uni "#DB_PASSWORD=".toList l

/-- Line view of the whole patch. -/
def patchLines (uni : Char → Bool) (appURL dbPath : Text) (ls : List Text) : List Text :=
  let ls := ruleLines uni appURLRegex ("APP_URL=".toList ++ appURL) ls
  let ls := ruleLines uni dbConnRegex "DB_CONNECTION=sqlite".toList ls
  let ls := ruleLines uni dbDatabaseRegex ("DB_DATABASE=".toList ++ dbPath) ls
  let ls := ls.map (dbHostRegex.replaceLine uni "#DB_HOST=".toList)
  let ls := ls.map (dbPortRegex.replaceLine uni "#DB_PORT=".toList)
  let ls := ls.map (dbUserRegex.replaceLine uni "#DB_USERNAME=".toList)
  ls.map (dbPassRegex.replaceLine uni "#DB_PASSWORD=".toList)

/-- Number of lines of a text that begin with `key`. -/
def countLines (key : Text) (t : Text) : Nat :=
  (splitLines t).countP fun l => key.isPrefixOf l

/-- Two literals neither of which begins with the other: no line begins with
both. -/
def Incomp (p q : Text) : Prop :=
  p.isPrefixOf q = false ∧ q.isPrefixOf p = false

instance (p q : Text) : Decidable (Incomp p q) := by
  unfold Incomp
  infer_instance

/-- The literals of the three replace-or-append rules. -/
def setKeys : List Text :=
  ["APP_URL=".toList, "DB_CONNECTION=".toList, "DB_DATABASE=".toList]

/-- The literals of the four comment-out rules. -/
def commentKeys : List Text :=
  ["DB_HOST=".toList, "DB_PORT=".toList, "DB_USERNAME=".toList, "DB_PASSWORD=".toList]

/-- A key is settled on the line `t`: some line begins with `p`, and every
line that does is `t`. -/
def Settled (p t : Text) (ls : List Text) : Prop :=
  (∃ l ∈ ls, p.isPrefixOf l = true) ∧ ∀ l ∈ ls, p.isPrefixOf l = true → l = t

/-! ## Strings library -/

/-- White space of `unicode.IsSpace` (the `White_Space` property). -/
def isSpace (c : Char) : Bool :=
  let n := c.toNat
  (0x09 ≤ n && n ≤ 0x0d) || n = 0x20 || n = 0x85 || n = 0xa0 || n = 0x1680 ||
    (0x2000 ≤ n && n ≤ 0x200a) || n = 0x2028 || n = 0x2029 || n = 0x202f ||
    n = 0x205f || n = 0x3000

/-- Model of `strings.TrimFunc`: leading and trailing runes that satisfy `f` removed. -/
def trimFunc (f : Char → Bool) (s : Text) : Text :=
  ((s.dropWhile f).reverse.dropWhile f).reverse

/-- Model of `strings.TrimSpace`. -/
def trimSpace (s : Text) : Text := trimFunc isSpace s

/-- Model of `strings.Trim(s, cutset)`. -/
def trim (s cutset : Text) : Text := trimFunc (fun c => cutset.contains c) s

/-- Loop of `strings.Fields`, with the field being read kept in reverse. -/
def fieldsAux : Text → Text → List Text
  | cur, [] => if cur = [] then [] else [cur.reverse]
  | cur, c :: cs =>
    if isSpace c then
      if cur = [] then fieldsAux [] cs else cur.reverse :: fieldsAux [] cs
    else fieldsAux (c :: cur) cs

/-- Model of `strings.Fields`: the maximal runs of runes that are not white space. -/
def fields (s : Text) : List Text := fieldsAux [] s

/-- Left-justified padding of `%-Ns`: blanks appended up to `width` runes. -/
def padRight (width : Nat) (s : Text) : Text :=
  s ++ List.replicate (width - s.length) ' '

/-! ## The world outside the program -/

/-- Outcome of `os.Stat`. -/
inductive Stat
  | dir
  | file
  | notExist
  | failed
  deriving DecidableEq, Repr

/-- Whether `err == nil` for `os.Stat`. -/
def Stat.ok : Stat → Bool
  | .dir => true
  | .file => true
  | _ => false

/-- An operation the program invokes on the world, besides read-only
queries: external commands, file writes, and prompts on the terminal. -/
inductive Effect
  | prompt (question : Text)
  | gitBranch (branch : Text)
  | gitWorktreeAdd (path branch : Text)
  | gitWorktreeRemove (path : Text)
  | gitWorktreePrune
  | herdLink (dir site : Text)
  | herdSecure (site : Text)
  | herdRestart
  | herdUnlink (site : Text)
  | writeFile (path content : Text)
  | mkdirAll (path : Text)
  | createFile (path : Text)
  | composerInstall (dir : Text)
  | keyGenerate (dir : Text)
  | migrateSeed (dir : Text)
  | npmRunDev (dir : Text)
  deriving DecidableEq, Repr

/-- Operations that change the repository, the filesystem or the site
manager (everything but a prompt). -/
def Effect.mutates : Effect → Bool
  | .prompt _ => false
  | _ => true

/-- Answers of the world to the program: library tables, query results, the
outcome of every operation, and what each successive read of standard input
returns. -/
structure World where
  /-- Letter-or-digit class of the Unicode tables above ASCII. -/
  uni : Char → Bool
  /-- Lower-case mapping `unicode.ToLower` above ASCII. -/
  lower : Char → Char
  /-- Library function `filepath.Join`. -/
  join : List Text → Text
  /-- Library function `filepath.Base`. -/
  base : Text → Text
  /-- Library function `filepath.Dir`. -/
  dir : Text → Text
  /-- Output of `git rev-parse --show-toplevel`, `none` when it fails. -/
  showToplevel : Option Text
  /-- Output of `git rev-parse --git-common-dir`, `none` when it fails. -/
  gitCommonDir : Option Text
  /-- Whether `git show-ref --verify --quiet refs/heads/<branch>` succeeds. -/
  branchRef : Text → Bool
  /-- Output of `git worktree list`, `none` when it fails. -/
  worktreeList : Option Text
  /-- Result of `os.Stat`. -/
  stat : Text → Stat
  /-- Result of `os.ReadFile`, `none` when it fails. -/
  readFile : Text → Option Text
  /-- Whether `exec.LookPath("herd")` finds the executable. -/
  herdOnPath : Bool
  /-- Whether an invoked operation succeeds. -/
  succeeds : Effect → Bool

/-! ## Git and Herd queries -/

def isGitRepo (w : World) : Bool := w.showToplevel.isSome

def checkGitRepo (w : World) : Bool := isGitRepo w

def getRepoRoot (w : World) : Option Text := w.showToplevel.map trimSpace

def getMainRepoRoot (w : World) : Option Text :=
  match w.gitCommonDir with
  | none => getRepoRoot w
  | some out =>
    let gitCommonDir := trimSpace out
    if gitCommonDir = ".git".toList then getRepoRoot w else some (w.dir gitCommonDir)

def getWorktreePath (w : World) (branch : Text) : Option Text :=
  (getRepoRoot w).map fun root => w.join [root, ".worktrees".toList, branch]

def branchExists (w : World) (branch : Text) : Bool := w.branchRef branch

def worktreeExists (w : World) (branch : Text) : Bool :=
  match getWorktreePath w branch with
  | none => false
  | some path => w.stat path = Stat.dir

def getHerdSiteName (w : World) (branch : Text) : Option Text :=
  (getMainRepoRoot w).map fun repoRoot => herdSiteName (w.base repoRoot) branch

def herdExists (w : World) : Bool := w.herdOnPath

/-- Effects of `linkToHerd` and whether it returned no error. -/
def linkToHerd (w : World) (worktreePath branch : Text) : List Effect × Bool :=
  match getHerdSiteName w branch with
  | none => ([], false)
  | some siteName =>
    if !herdExists w then ([], false)
    else if !w.succeeds (.herdLink worktreePath siteName) then
      ([.herdLink worktreePath siteName], false)
    else ([.herdLink worktreePath siteName, .herdSecure siteName, .herdRestart], true)

def unlinkFromHerd (w : World) (branch : Text) : List Effect :=
  if !herdExists w then []
  else
    match getHerdSiteName w branch with
    | none => []
    | some siteName => [.herdUnlink siteName]

/-! ## Environment setup -/

/-- The first block of `setupEnvironment`, "copy .env.example to .env if
needed": its effects, whether it went through without error, and the content
written to `.env` when a copy was made. -/
def copyEnvExample (w : World) (worktreePath : Text) : List Effect × Bool × Option Text :=
  let envPath := w.join [worktreePath, ".env".toList]
  let envExamplePath := w.join [worktreePath, ".env.example".toList]
  if w.stat envPath = Stat.notExist ∧ (w.stat envExamplePath).ok then
    match w.readFile envExamplePath with
    | none => ([], false, none)
    | some input =>
      ([.writeFile envPath input], w.succeeds (.writeFile envPath input), some input)
  else ([], true, none)

/-- The rest of `setupEnvironment` after the copy block: database directory,
database file, site URL and the patch of `.env`. `copied` is the content of a
`.env` just copied from the template; its effects and whether it returned no
error. -/
def setupDatabaseAndPatch (w : World) (worktreePath branch : Text) (copied : Option Text) :
    List Effect × Bool :=
  let envPath := w.join [worktreePath, ".env".toList]
  let dbDir := w.join [worktreePath, "database".toList]
  let dbPath := w.join [dbDir, "database.sqlite".toList]
  if !w.succeeds (.mkdirAll dbDir) then ([.mkdirAll dbDir], false)
  else if !w.succeeds (.createFile dbPath) then ([.mkdirAll dbDir, .createFile dbPath], false)
  else
    match getHerdSiteName w branch with
    | none => ([.mkdirAll dbDir, .createFile dbPath], false)
    | some siteName =>
      let appURL := appURLOf siteName
      -- update .env if it exists (it does after a copy)
      if copied.isSome ∨ (w.stat envPath).ok then
        match copied <|> w.readFile envPath with
        | none => ([.mkdirAll dbDir, .createFile dbPath], false)
        | some envContent =>
          let patched := patchEnv w.uni appURL dbPath envContent
          ([.mkdirAll dbDir, .createFile dbPath, .writeFile envPath patched],
            w.succeeds (.writeFile envPath patched))
      else ([.mkdirAll dbDir, .createFile dbPath], true)

/-- Effects of `setupEnvironment` and whether it returned no error: every
`return err` ends it with the effects so far. -/
def setupEnvironment (w : World) (worktreePath branch : Text) : List Effect × Bool :=
  let copy := copyEnvExample w worktreePath
  if !copy.2.1 then (copy.1, false)
  else
    let rest := setupDatabaseAndPatch w worktreePath branch copy.2.2
    (copy.1 ++ rest.1, rest.2)

/-- No effect of the list follows a failed one. -/
def StopsAtFailure (w : World) (es : List Effect) : Prop :=
  ∀ (i : Nat) (e : Effect), es[i]? = some e → i + 1 < es.length → w.succeeds e = true

/-! ## Confirmation -/

/-- Model of `strings.ToLower`. -/
def toLower (w : World) (s : Text) : Text :=
  s.map fun c => if c.toNat < 128 then c.toLower else w.lower c

/-- The text `confirm` prints. -/
def confirmPrompt (prompt : Text) (defaultYes : Bool) : Text :=
  prompt ++ (if defaultYes then " [Y/n] ".toList else " [y/N] ".toList)

/-- The decision of `confirm` on the line `response` read from standard
input (empty at end of input). -/
def confirm (w : World) (response : Text) (defaultYes : Bool) : Bool :=
  let response := trimSpace (toLower w response)
  if response = [] then defaultYes
  else response = "y".toList || response = "yes".toList

/-! ## Provisioning -/

/-- Effects of `provisionWorktree` and its returned error (`none` for `nil`).
`answers` are the lines the successive prompts read. -/
def provisionWorktree (w : World) (answers : List Text) (worktreePath branch : Text) :
    List Effect × Option Text :=
  let env := (setupEnvironment w worktreePath branch).1
  let composer := [Effect.composerInstall worktreePath]
  let key :=
    Effect.prompt (confirmPrompt "Generate application key?".toList true) ::
      (if confirm w (answers.getD 0 []) true then [Effect.keyGenerate worktreePath] else [])
  let migrate :=
    Effect.prompt (confirmPrompt "Run migrations with seeding?".toList false) ::
      (if confirm w (answers.getD 1 []) false then [Effect.migrateSeed worktreePath] else [])
  let herd := (linkToHerd w worktreePath branch).1
  let npm :=
    if (w.stat (w.join [worktreePath, "package.json".toList])).ok then
      Effect.prompt (confirmPrompt "Run 'npm run dev'?".toList false) ::
        (if confirm w (answers.getD 2 []) false then [Effect.npmRunDev worktreePath] else [])
    else []
  (env ++ composer ++ key ++ migrate ++ herd ++ npm, none)

/-! ## Commands -/

/-- Effects and exit code of `cmdNew`. -/
def cmdNew (w : World) (answers : List Text) (branch : Text) : List Effect × Nat :=
  if branch = [] then ([], 1)
  else if !checkGitRepo w then ([], 1)
  else if worktreeExists w branch then ([], 1)
  else
    let question :=
      confirmPrompt ("Branch '".toList ++ branch ++ "' does not exist. Create it?".toList) true
    -- create the branch if it does not exist: effects, answers left, whether to go on
    let create : List Effect × List Text × Option Nat :=
      if !branchExists w branch then
        if confirm w (answers.getD 0 []) true then
          if !w.succeeds (.gitBranch branch) then
            ([.prompt question, .gitBranch branch], answers.tail, some 1)
          else ([.prompt question, .gitBranch branch], answers.tail, none)
        else ([.prompt question], answers.tail, some 0)
      else ([], answers, none)
    match create.2.2 with
    | some code => (create.1, code)
    | none =>
      match getWorktreePath w branch with
      | none => (create.1, 1)
      | some worktreePath =>
        if !w.succeeds (.gitWorktreeAdd worktreePath branch) then
          (create.1 ++ [.gitWorktreeAdd worktreePath branch], 1)
        else
          (create.1 ++ [.gitWorktreeAdd worktreePath branch] ++
            (provisionWorktree w create.2.1 worktreePath branch).1, 0)

/-- Effects and exit code of `cmdRemove`. -/
def cmdRemove (w : World) (answers : List Text) (branch : Text) : List Effect × Nat :=
  if branch = [] then ([], 1)
  else if !checkGitRepo w then ([], 1)
  else if !worktreeExists w branch then ([], 1)
  else
    match getWorktreePath w branch with
    | none => ([], 1)
    | some worktreePath =>
      let question :=
        confirmPrompt ("Remove worktree at '".toList ++ worktreePath ++ "'?".toList) false
      if confirm w (answers.getD 0 []) false then
        if !w.succeeds (.gitWorktreeRemove worktreePath) then
          (.prompt question :: unlinkFromHerd w branch ++ [.gitWorktreeRemove worktreePath], 1)
        else
          (.prompt question :: unlinkFromHerd w branch ++
            [.gitWorktreeRemove worktreePath, .gitWorktreePrune], 0)
      else ([.prompt question], 0)

/-- One row of the table of `cmdList`: branch, path, HEAD. -/
structure Row where
  branch : Text
  path : Text
  head : Text
  deriving DecidableEq, Repr

/-- The loop body of `cmdList` on one line of `git worktree list`: the row it
prints, `none` when the line is skipped. -/
def parseWorktreeLine (line : Text) : Option Row :=
  if line = [] then none
  else
    let fields := fields line
    if fields.length < 2 then none
    else
      let path := fields.getD 0 []
      let head := fields.getD 1 []
      let branch :=
        if 3 ≤ fields.length then trim (fields.getD 2 []) "[]".toList
        else "(detached)".toList
      some ⟨branch, path, head⟩

/-- The row as printed by `fmt.Printf("%-20s %-50s %s\n", branch, path, head)`, without
the line feed. -/
def formatRow (r : Row) : Text :=
  padRight 20 r.branch ++ ' ' :: padRight 50 r.path ++ ' ' :: r.head

/-- Rows printed by `cmdList` for the output `out` of `git worktree list`. -/
def cmdListRows (out : Text) : List Row :=
  (splitLines (trimSpace out)).filterMap parseWorktreeLine

/-- Exit code of `cmdList` and the rows of its table (`none` when no table is
printed). -/
def cmdList (w : World) : Option (List Row) × Nat :=
  if !checkGitRepo w then (none, 1)
  else
    match w.worktreeList with
    | none => (none, 1)
    | some out =>
      if trimSpace out = [] then (none, 0)
      else (some (cmdListRows out), 0)

/-! ## A sample world -/

/-- Letter-or-digit class with nothing above ASCII (never consulted on ASCII
text). -/
def asciiClass : Char → Bool := fun _ => false

/-- Path elements joined by a slash (`filepath.Join` on clean elements). -/
def joinSlash (parts : List Text) : Text := List.intercalate ['/'] parts

/-- Last element of a slash-separated path (`filepath.Base` on a clean path). -/
def lastSegment (p : Text) : Text := (p.reverse.takeWhile (· ≠ '/')).reverse

/-- All but the last element of a slash-separated path (`filepath.Dir` on a
clean path). -/
def parentDir (p : Text) : Text := ((p.reverse.dropWhile (· ≠ '/')).drop 1).reverse

/-- The repository `/srv/myapp` with a worktree for `feature-x` whose `.env`
exists, Herd installed, and every operation succeeding. -/
def sampleWorld : World where
  uni := asciiClass
  lower := id
  join := joinSlash
  base := lastSegment
  dir := parentDir
  showToplevel := some "/srv/myapp\n".toList
  gitCommonDir := some ".git\n".toList
  branchRef := fun _ => true
  worktreeList := some "/srv/myapp  abc1234 [main]\n".toList
  stat := fun p =>
    if p = "/srv/myapp/.worktrees/feature-x".toList then Stat.dir
    else if p = "/srv/myapp/.worktrees/feature-x/.env".toList then Stat.file
    else Stat.notExist
  readFile := fun p =>
    if p = "/srv/myapp/.worktrees/feature-x/.env".toList then
      some "APP_URL=http://localhost\nDB_HOST=127.0.0.1".toList
    else none
  herdOnPath := true
  succeeds := fun _ => true

/-- The sample world in which creating the `database` directory fails. -/
def mkdirFailsWorld : World :=
  { sampleWorld with
    succeeds := fun e =>
      match e with
      | .mkdirAll _ => false
      | _ => true }

/-- The value each replace-or-append rule writes after its key: the URL for
`APP_URL=`, `sqlite` for `DB_CONNECTION=`, the database path for
`DB_DATABASE=`. -/
def setValue (appURL dbPath key : Text) : Text :=
  if key = "APP_URL=".toList then appURL
  else if key = "DB_CONNECTION=".toList then "sqlite".toList
  else dbPath

/-- Path of `.env` in a worktree. -/
def envPathOf (w : World) (worktreePath : Text) : Text :=
  w.join [worktreePath, ".env".toList]

/-- Path of `.env.example` in a worktree. -/
def envExamplePathOf (w : World) (worktreePath : Text) : Text :=
  w.join [worktreePath, ".env.example".toList]

/-- Path of the `database` directory of a worktree. -/
def dbDirOf (w : World) (worktreePath : Text) : Text :=
  w.join [worktreePath, "database".toList]

/-- Path of the SQLite file of a worktree. -/
def dbPathOf (w : World) (worktreePath : Text) : Text :=
  w.join [dbDirOf w worktreePath, "database.sqlite".toList]

/-! ## Lemmas on lines -/

theorem splitLines_ne_nil (t : Text) : splitLines t ≠ [] := by
  cases t with
  | nil => simp [splitLines]
  | cons c cs =>
    unfold splitLines
    split
    · simp
    · split <;> simp

theorem splitLines_cons_nl (cs : Text) : splitLines ('\n' :: cs) = [] :: splitLines cs := by
  simp [splitLines]

theorem splitLines_cons_of_ne {c : Char} (h : c ≠ '\n') (cs : Text) :
    splitLines (c :: cs) =
      (c :: (splitLines cs).headD []) :: (splitLines cs).tail := by
  have hne := splitLines_ne_nil cs
  rw [splitLines, if_neg h]
  cases hs : splitLines cs with
  | nil => exact absurd hs hne
  | cons l ls => simp

theorem joinLines_cons_cons (l l' : Text) (ls : List Text) :
    joinLines (l :: l' :: ls) = l ++ '\n' :: joinLines (l' :: ls) := rfl

theorem joinLines_cons_of_ne_nil (l : Text) {ls : List Text} (h : ls ≠ []) :
    joinLines (l :: ls) = l ++ '\n' :: joinLines ls := by
  cases ls with
  | nil => exact absurd rfl h
  | cons l' ls => rfl

theorem joinLines_splitLines (t : Text) : joinLines (splitLines t) = t := by
  induction t with
  | nil => rfl
  | cons c cs ih =>
    by_cases h : c = '\n'
    · subst h
      rw [splitLines_cons_nl, joinLines_cons_of_ne_nil _ (splitLines_ne_nil cs), ih]
      rfl
    · rw [splitLines_cons_of_ne h]
      have hne := splitLines_ne_nil cs
      cases hs : splitLines cs with
      | nil => exact absurd hs hne
      | cons l ls =>
        rw [hs] at ih
        cases ls with
        | nil =>
          simp only [joinLines] at ih
          simp [joinLines, ih]
        | cons l' ls =>
          rw [joinLines_cons_cons] at ih
          simp only [List.headD_cons, List.tail_cons, joinLines_cons_cons, List.cons_append, ih]

theorem splitLines_of_no_nl {l : Text} (h : '\n' ∉ l) : splitLines l = [l] := by
  induction l with
  | nil => rfl
  | cons c cs ih =>
    have hc : c ≠ '\n' := fun e => h (by simp [e])
    have hcs : '\n' ∉ cs := fun e => h (List.mem_cons_of_mem _ e)
    rw [splitLines_cons_of_ne hc, ih hcs]
    rfl

theorem splitLines_append_nl (t l : Text) :
    splitLines (t ++ '\n' :: l) = splitLines t ++ splitLines l := by
  induction t with
  | nil => simp [splitLines]
  | cons c cs ih =>
    by_cases h : c = '\n'
    · subst h
      simp only [List.cons_append, splitLines_cons_nl, ih]
    · have hne := splitLines_ne_nil cs
      simp only [List.cons_append, splitLines_cons_of_ne h, ih]
      cases hs : splitLines cs with
      | nil => exact absurd hs hne
      | cons a as => simp

theorem mem_splitLines_no_nl {t l : Text} (h : l ∈ splitLines t) : '\n' ∉ l := by
  induction t generalizing l with
  | nil =>
    simp [splitLines] at h
    subst h
    simp
  | cons c cs ih =>
    by_cases hc : c = '\n'
    · subst hc
      rw [splitLines_cons_nl] at h
      rcases List.mem_cons.1 h with h | h
      · subst h
        simp
      · exact ih h
    · rw [splitLines_cons_of_ne hc] at h
      have hne := splitLines_ne_nil cs
      cases hs : splitLines cs with
      | nil => exact absurd hs hne
      | cons a as =>
        rw [hs] at h ih
        simp only [List.headD_cons, List.tail_cons, List.mem_cons] at h
        rcases h with h | h
        · subst h
          intro hm
          rcases List.mem_cons.1 hm with e | e
          · exact hc e.symm
          · exact ih (List.mem_cons_self _ _) e
        · exact ih (List.mem_cons_of_mem _ h)

theorem splitLines_joinLines {ls : List Text} (hne : ls ≠ [])
    (h : ∀ l ∈ ls, '\n' ∉ l) : splitLines (joinLines ls) = ls := by
  induction ls with
  | nil => exact absurd rfl hne
  | cons l ls ih =>
    cases ls with
    | nil =>
      exact splitLines_of_no_nl (h l (List.mem_cons_self _ _))
    | cons l' ls =>
      rw [joinLines_cons_cons, splitLines_append_nl,
        splitLines_of_no_nl (h l (List.mem_cons_self _ _)),
        ih (by simp) (fun x hx => h x (List.mem_cons_of_mem _ hx))]
      rfl

/-! ## Lemmas on template expansion -/

theorem expandGo_nil (uni : Char → Bool) (m : Text) (k : Nat) : expandGo uni m k [] = [] := by
  cases k <;> rfl

theorem expandGo_lit_append (uni : Char → Bool) (m pre t : Text) (h : '$' ∉ pre) :
    expandGo uni m 0 (pre ++ t) = pre ++ expandGo uni m 0 t := by
  induction pre with
  | nil => rfl
  | cons c cs ih =>
    have hc : c ≠ '$' := fun e => h (by simp [e])
    have hcs : '$' ∉ cs := fun e => h (List.mem_cons_of_mem _ e)
    rw [List.cons_append, expandGo, if_neg hc, ih hcs]
    rfl

theorem expand_lit_append (uni : Char → Bool) (m pre t : Text) (h : '$' ∉ pre) :
    expand uni (pre ++ t) m = pre ++ expand uni t m :=
  expandGo_lit_append uni m pre t h

theorem expand_of_no_dollar (uni : Char → Bool) (m t : Text) (h : '$' ∉ t) :
    expand uni t m = t := by
  have := expand_lit_append uni m t [] h
  simpa [expand, expandGo_nil] using this

theorem expandGo_no_nl (uni : Char → Bool) (m : Text) (hm : '\n' ∉ m) (t : Text)
    (ht : '\n' ∉ t) (k : Nat) : '\n' ∉ expandGo uni m k t := by
  induction t generalizing k with
  | nil => simp [expandGo_nil]
  | cons c cs ih =>
    have hc : c ≠ '\n' := fun e => ht (by simp [e])
    have hcs : '\n' ∉ cs := fun e => ht (List.mem_cons_of_mem _ e)
    cases k with
    | succ k => simpa [expandGo] using ih hcs k
    | zero =>
      unfold expandGo
      split
      · split
        · intro hmem
          rcases List.mem_cons.1 hmem with e | e
          · exact absurd e (by decide)
          · exact ih hcs 1 e
        · split
          · intro hmem
            rcases List.mem_cons.1 hmem with e | e
            · exact absurd e (by decide)
            · exact ih hcs 0 e
          · intro hmem
            rcases List.mem_append.1 hmem with e | e
            · split at e
              · exact hm e
              · simp at e
            · exact ih hcs _ e
      · intro hmem
        rcases List.mem_cons.1 hmem with e | e
        · exact hc e.symm
        · exact ih hcs 0 e

theorem expand_no_nl (uni : Char → Bool) {t m : Text} (ht : '\n' ∉ t) (hm : '\n' ∉ m) :
    '\n' ∉ expand uni t m :=
  expandGo_no_nl uni m hm t ht 0

/-! ## Lemmas on single lines -/

theorem incomp_not_both {p q l : Text} (h : Incomp p q) (hp : p.isPrefixOf l = true) :
    q.isPrefixOf l = false := by
  by_contra hq
  have hq' : q.isPrefixOf l = true := by simpa using hq
  rw [List.isPrefixOf_iff_prefix] at hp hq'
  rcases List.prefix_or_prefix_of_prefix hp hq' with e | e
  · have := List.isPrefixOf_iff_prefix.2 e
    rw [h.1] at this
    exact absurd this (by decide)
  · have := List.isPrefixOf_iff_prefix.2 e
    rw [h.2] at this
    exact absurd this (by decide)

theorem replaceLine_of_no_match (uni : Char → Bool) (re : LineRegex) (repl : Text)
    {l : Text} (h : re.lit.isPrefixOf l = false) : re.replaceLine uni repl l = l := by
  simp [LineRegex.replaceLine, h]

theorem replaceLine_set (uni : Char → Bool) (re : LineRegex) (v l : Text)
    (hre : re.toEol = true) (hd : '$' ∉ re.lit) (h : re.lit.isPrefixOf l = true) :
    re.replaceLine uni (re.lit ++ v) l = re.lit ++ expand uni v l := by
  simp [LineRegex.replaceLine, LineRegex.matched, h, hre, expand_lit_append uni l re.lit v hd]

theorem replaceLine_comment (uni : Char → Bool) (re : LineRegex) (l : Text)
    (hre : re.toEol = false) (hd : '$' ∉ re.lit) (h : re.lit.isPrefixOf l = true) :
    re.replaceLine uni ('#' :: re.lit) l = '#' :: l := by
  have hrepl : '$' ∉ '#' :: re.lit := by
    intro hm
    rcases List.mem_cons.1 hm with e | e
    · exact absurd e (by decide)
    · exact hd e
  obtain ⟨s, hs⟩ := List.isPrefixOf_iff_prefix.1 h
  subst hs
  simp [LineRegex.replaceLine, LineRegex.matched, hre, expand_of_no_dollar uni _ _ hrepl]

theorem replaceLine_no_nl (uni : Char → Bool) (re : LineRegex) {repl l : Text}
    (hr : '\n' ∉ repl) (hl : '\n' ∉ l) : '\n' ∉ re.replaceLine uni repl l := by
  unfold LineRegex.replaceLine
  split
  · rename_i hp
    intro hm
    rcases List.mem_append.1 hm with e | e
    · refine expand_no_nl uni hr ?_ e
      unfold LineRegex.matched
      split
      · exact hl
      · intro hlit
        exact hl ((List.isPrefixOf_iff_prefix.1 hp).subset hlit)
    · exact hl (List.mem_of_mem_drop e)
  · exact hl

/-! ## From texts to lines -/

theorem lines_replaceAllString (uni : Char → Bool) (re : LineRegex) (src : Text)
    {repl : Text} (hr : '\n' ∉ repl) :
    splitLines (re.replaceAllString uni src repl) =
      (splitLines src).map (re.replaceLine uni repl) := by
  unfold LineRegex.replaceAllString
  apply splitLines_joinLines
  · simp [splitLines_ne_nil]
  · intro l hl
    obtain ⟨l0, hl0, rfl⟩ := List.mem_map.1 hl
    exact replaceLine_no_nl uni re hr (mem_splitLines_no_nl hl0)

theorem lines_replaceOrAppend (uni : Char → Bool) (re : LineRegex) (t : Text)
    {line : Text} (hr : '\n' ∉ line) :
    splitLines (replaceOrAppend uni re line t) = ruleLines uni re line (splitLines t) := by
  unfold replaceOrAppend ruleLines LineRegex.matchString
  split
  · rw [lines_replaceAllString uni re t hr, List.append_nil]
  · rename_i h
    rw [splitLines_append_nl, splitLines_of_no_nl hr]
    congr 1
    have hmap : ∀ l ∈ splitLines t, re.replaceLine uni line l = id l := by
      intro l hl
      apply replaceLine_of_no_match
      by_contra hp
      exact h (List.any_eq_true.2 ⟨l, hl, by simpa using hp⟩)
    rw [List.map_congr_left hmap, List.map_id]

theorem replaceLine_set_eq (uni : Char → Bool) (re : LineRegex) (repl v l : Text)
    (hrepl : repl = re.lit ++ v) (hre : re.toEol = true) (hd : '$' ∉ re.lit) :
    re.replaceLine uni repl l =
      if re.lit.isPrefixOf l then re.lit ++ expand uni v l else l := by
  subst hrepl
  split
  · rename_i h
    exact replaceLine_set uni re v l hre hd h
  · rename_i h
    exact replaceLine_of_no_match uni re _ (Bool.eq_false_iff.2 h)

theorem replaceLine_comment_eq (uni : Char → Bool) (re : LineRegex) (repl l : Text)
    (hrepl : repl = '#' :: re.lit) (hre : re.toEol = false) (hd : '$' ∉ re.lit) :
    re.replaceLine uni repl l = if re.lit.isPrefixOf l then '#' :: l else l := by
  subst hrepl
  split
  · rename_i h
    exact replaceLine_comment uni re l hre hd h
  · rename_i h
    exact replaceLine_of_no_match uni re _ (Bool.eq_false_iff.2 h)

theorem lines_patchEnv (uni : Char → Bool) {appURL dbPath : Text}
    (ha : '\n' ∉ appURL) (hd : '\n' ∉ dbPath) (t : Text) :
    splitLines (patchEnv uni appURL dbPath t) =
      patchLines uni appURL dbPath (splitLines t) := by
  have h1 : '\n' ∉ "APP_URL=".toList ++ appURL := by
    intro hm
    rcases List.mem_append.1 hm with e | e
    · exact absurd e (by decide)
    · exact ha e
  have h3 : '\n' ∉ "DB_DATABASE=".toList ++ dbPath := by
    intro hm
    rcases List.mem_append.1 hm with e | e
    · exact absurd e (by decide)
    · exact hd e
  unfold patchEnv patchLines
  simp only
  rw [lines_replaceAllString uni _ _ (by decide), lines_replaceAllString uni _ _ (by decide),
    lines_replaceAllString uni _ _ (by decide), lines_replaceAllString uni _ _ (by decide),
    lines_replaceOrAppend uni _ _ h3, lines_replaceOrAppend uni _ _ (by decide),
    lines_replaceOrAppend uni _ _ h1]

theorem ruleLines_map_append (uni : Char → Bool) (re : LineRegex) (line : Text)
    (ls : List Text) :
    ∃ extra, ruleLines uni re line ls = ls.map (re.replaceLine uni line) ++ extra :=
  ⟨_, rfl⟩

theorem patchLines_map_append (uni : Char → Bool) (appURL dbPath : Text) (ls : List Text) :
    ∃ extra, patchLines uni appURL dbPath ls =
      ls.map (patchLine uni appURL dbPath) ++ extra := by
  unfold patchLines patchLine ruleLines
  simp only [List.map_append, List.map_map, List.append_assoc]
  exact ⟨_, rfl⟩

/-! ## What the patch does to one line -/

theorem patchLine_of_no_key (uni : Char → Bool) (appURL dbPath : Text) {l : Text}
    (h : ∀ k ∈ setKeys ++ commentKeys, k.isPrefixOf l = false) :
    patchLine uni appURL dbPath l = l := by
  have h1 : appURLRegex.lit.isPrefixOf l = false := h _ (by decide)
  have h2 : dbConnRegex.lit.isPrefixOf l = false := h _ (by decide)
  have h3 : dbDatabaseRegex.lit.isPrefixOf l = false := h _ (by decide)
  have h4 : dbHostRegex.lit.isPrefixOf l = false := h _ (by decide)
  have h5 : dbPortRegex.lit.isPrefixOf l = false := h _ (by decide)
  have h6 : dbUserRegex.lit.isPrefixOf l = false := h _ (by decide)
  have h7 : dbPassRegex.lit.isPrefixOf l = false := h _ (by decide)
  unfold patchLine
  simp only
  rw [replaceLine_of_no_match uni _ _ h1, replaceLine_of_no_match uni _ _ h2,
    replaceLine_of_no_match uni _ _ h3, replaceLine_of_no_match uni _ _ h4,
    replaceLine_of_no_match uni _ _ h5, replaceLine_of_no_match uni _ _ h6,
    replaceLine_of_no_match uni _ _ h7]

theorem key_not_prefix_hash {k : Text} (hk : k ∈ setKeys ++ commentKeys) (l : Text) :
    k.isPrefixOf ('#' :: l) = false := by
  simp only [setKeys, commentKeys, List.cons_append, List.nil_append, List.mem_cons,
    List.mem_singleton, List.not_mem_nil, or_false] at hk
  rcases hk with rfl | rfl | rfl | rfl | rfl | rfl | rfl <;> rfl

theorem patchLine_hash (uni : Char → Bool) (appURL dbPath : Text) (l : Text) :
    patchLine uni appURL dbPath ('#' :: l) = '#' :: l :=
  patchLine_of_no_key uni appURL dbPath fun _ hk => key_not_prefix_hash hk l

theorem prefix_self_append (k v : Text) : k.isPrefixOf (k ++ v) = true :=
  List.isPrefixOf_iff_prefix.2 (List.prefix_append k v)

theorem patchLine_comment_key (uni : Char → Bool) (appURL dbPath : Text) {k : Text}
    (hk : k ∈ commentKeys) (v : Text) :
    patchLine uni appURL dbPath (k ++ v) = '#' :: (k ++ v) := by
  have hp := prefix_self_append k v
  have hh : ∀ q ∈ commentKeys, q.isPrefixOf ('#' :: (k ++ v)) = false :=
    fun q hq => key_not_prefix_hash (List.mem_append_right _ hq) _
  have h1 : appURLRegex.lit.isPrefixOf (k ++ v) = false := by
    simp only [commentKeys, List.mem_cons, List.mem_singleton, List.not_mem_nil, or_false] at hk
    rcases hk with rfl | rfl | rfl | rfl <;> exact incomp_not_both (by decide) hp
  have h2 : dbConnRegex.lit.isPrefixOf (k ++ v) = false := by
    simp only [commentKeys, List.mem_cons, List.mem_singleton, List.not_mem_nil, or_false] at hk
    rcases hk with rfl | rfl | rfl | rfl <;> exact incomp_not_both (by decide) hp
  have h3 : dbDatabaseRegex.lit.isPrefixOf (k ++ v) = false := by
    simp only [commentKeys, List.mem_cons, List.mem_singleton, List.not_mem_nil, or_false] at hk
    rcases hk with rfl | rfl | rfl | rfl <;> exact incomp_not_both (by decide) hp
  unfold patchLine
  simp only
  rw [replaceLine_of_no_match uni _ _ h1, replaceLine_of_no_match uni _ _ h2,
    replaceLine_of_no_match uni _ _ h3]
  simp only [commentKeys, List.mem_cons, List.mem_singleton, List.not_mem_nil, or_false] at hk
  rcases hk with rfl | rfl | rfl | rfl
  · have c : dbHostRegex.replaceLine uni "#DB_HOST=".toList ("DB_HOST=".toList ++ v) =
        '#' :: ("DB_HOST=".toList ++ v) :=
      replaceLine_comment uni dbHostRegex _ rfl (by decide) hp
    rw [c, replaceLine_of_no_match uni _ _ (hh _ (by decide)),
      replaceLine_of_no_match uni _ _ (hh _ (by decide)),
      replaceLine_of_no_match uni _ _ (hh _ (by decide))]
  · have n4 : dbHostRegex.lit.isPrefixOf ("DB_PORT=".toList ++ v) = false :=
      incomp_not_both (by decide) hp
    have c : dbPortRegex.replaceLine uni "#DB_PORT=".toList ("DB_PORT=".toList ++ v) =
        '#' :: ("DB_PORT=".toList ++ v) :=
      replaceLine_comment uni dbPortRegex _ rfl (by decide) hp
    rw [replaceLine_of_no_match uni _ _ n4, c,
      replaceLine_of_no_match uni _ _ (hh _ (by decide)),
      replaceLine_of_no_match uni _ _ (hh _ (by decide))]
  · have n4 : dbHostRegex.lit.isPrefixOf ("DB_USERNAME=".toList ++ v) = false :=
      incomp_not_both (by decide) hp
    have n5 : dbPortRegex.lit.isPrefixOf ("DB_USERNAME=".toList ++ v) = false :=
      incomp_not_both (by decide) hp
    have c : dbUserRegex.replaceLine uni "#DB_USERNAME=".toList ("DB_USERNAME=".toList ++ v) =
        '#' :: ("DB_USERNAME=".toList ++ v) :=
      replaceLine_comment uni dbUserRegex _ rfl (by decide) hp
    rw [replaceLine_of_no_match uni _ _ n4, replaceLine_of_no_match uni _ _ n5, c,
      replaceLine_of_no_match uni _ _ (hh _ (by decide))]
  · have n4 : dbHostRegex.lit.isPrefixOf ("DB_PASSWORD=".toList ++ v) = false :=
      incomp_not_both (by decide) hp
    have n5 : dbPortRegex.lit.isPrefixOf ("DB_PASSWORD=".toList ++ v) = false :=
      incomp_not_both (by decide) hp
    have n6 : dbUserRegex.lit.isPrefixOf ("DB_PASSWORD=".toList ++ v) = false :=
      incomp_not_both (by decide) hp
    have c : dbPassRegex.replaceLine uni "#DB_PASSWORD=".toList ("DB_PASSWORD=".toList ++ v) =
        '#' :: ("DB_PASSWORD=".toList ++ v) :=
      replaceLine_comment uni dbPassRegex _ rfl (by decide) hp
    rw [replaceLine_of_no_match uni _ _ n4, replaceLine_of_no_match uni _ _ n5,
      replaceLine_of_no_match uni _ _ n6, c]

/-! ## Comment-out rules -/

theorem comment_clears_own (uni : Char → Bool) (re : LineRegex) (repl l : Text)
    (hrepl : repl = '#' :: re.lit) (hre : re.toEol = false) (hd : '$' ∉ re.lit)
    (hk : re.lit ∈ setKeys ++ commentKeys) :
    re.lit.isPrefixOf (re.replaceLine uni repl l) = false := by
  rw [replaceLine_comment_eq uni re repl l hrepl hre hd]
  split
  · exact key_not_prefix_hash hk l
  · rename_i h
    exact Bool.eq_false_iff.2 h

theorem comment_keeps_clear (uni : Char → Bool) (re : LineRegex) (repl l : Text)
    (hrepl : repl = '#' :: re.lit) (hre : re.toEol = false) (hd : '$' ∉ re.lit)
    {k : Text} (hk : k ∈ setKeys ++ commentKeys) (h : k.isPrefixOf l = false) :
    k.isPrefixOf (re.replaceLine uni repl l) = false := by
  rw [replaceLine_comment_eq uni re repl l hrepl hre hd]
  split
  · exact key_not_prefix_hash hk l
  · exact h

theorem comment_chain_clear (uni : Char → Bool) {k : Text} (hk : k ∈ commentKeys) (l : Text) :
    k.isPrefixOf
      (dbPassRegex.replaceLine uni "#DB_PASSWORD=".toList
        (dbUserRegex.replaceLine uni "#DB_USERNAME=".toList
          (dbPortRegex.replaceLine uni "#DB_PORT=".toList
            (dbHostRegex.replaceLine uni "#DB_HOST=".toList l)))) = false := by
  simp only [commentKeys, List.mem_cons, List.mem_singleton, List.not_mem_nil, or_false] at hk
  rcases hk with rfl | rfl | rfl | rfl
  · apply comment_keeps_clear uni dbPassRegex _ _ rfl rfl (by decide) (by decide)
    apply comment_keeps_clear uni dbUserRegex _ _ rfl rfl (by decide) (by decide)
    apply comment_keeps_clear uni dbPortRegex _ _ rfl rfl (by decide) (by decide)
    exact comment_clears_own uni dbHostRegex _ _ rfl rfl (by decide) (by decide)
  · apply comment_keeps_clear uni dbPassRegex _ _ rfl rfl (by decide) (by decide)
    apply comment_keeps_clear uni dbUserRegex _ _ rfl rfl (by decide) (by decide)
    exact comment_clears_own uni dbPortRegex _ _ rfl rfl (by decide) (by decide)
  · apply comment_keeps_clear uni dbPassRegex _ _ rfl rfl (by decide) (by decide)
    exact comment_clears_own uni dbUserRegex _ _ rfl rfl (by decide) (by decide)
  · exact comment_clears_own uni dbPassRegex _ _ rfl rfl (by decide) (by decide)

theorem patchEnv_clear (uni : Char → Bool) (appURL dbPath t : Text) {k : Text}
    (hk : k ∈ commentKeys) :
    ∀ l ∈ splitLines (patchEnv uni appURL dbPath t), k.isPrefixOf l = false := by
  intro l hl
  unfold patchEnv at hl
  simp only at hl
  rw [lines_replaceAllString uni _ _ (by decide), lines_replaceAllString uni _ _ (by decide),
    lines_replaceAllString uni _ _ (by decide), lines_replaceAllString uni _ _ (by decide)] at hl
  simp only [List.map_map, List.mem_map, Function.comp] at hl
  obtain ⟨l0, _, rfl⟩ := hl
  exact comment_chain_clear uni hk l0

/-! ## Frame -/

theorem lines_patchEnv_getElem (uni : Char → Bool) {appURL dbPath : Text}
    (ha : '\n' ∉ appURL) (hd : '\n' ∉ dbPath) (t : Text) {i : Nat} {l : Text}
    (h : (splitLines t)[i]? = some l) :
    (splitLines (patchEnv uni appURL dbPath t))[i]? = some (patchLine uni appURL dbPath l) := by
  rw [lines_patchEnv uni ha hd]
  obtain ⟨extra, he⟩ := patchLines_map_append uni appURL dbPath (splitLines t)
  rw [he]
  have hi : i < (splitLines t).length := by
    by_contra hc
    rw [List.getElem?_eq_none (Nat.le_of_not_lt hc)] at h
    exact absurd h (by simp)
  rw [List.getElem?_append_left (by simpa using hi), List.getElem?_map, h]
  rfl

theorem lines_patchEnv_length (uni : Char → Bool) {appURL dbPath : Text}
    (ha : '\n' ∉ appURL) (hd : '\n' ∉ dbPath) (t : Text) :
    (splitLines t).length ≤ (splitLines (patchEnv uni appURL dbPath t)).length := by
  rw [lines_patchEnv uni ha hd]
  obtain ⟨extra, he⟩ := patchLines_map_append uni appURL dbPath (splitLines t)
  rw [he]
  simp

theorem lines_iterate_hash (uni : Char → Bool) {appURL dbPath : Text}
    (ha : '\n' ∉ appURL) (hd : '\n' ∉ dbPath) (t : Text) {i : Nat} {l : Text}
    (h : (splitLines (patchEnv uni appURL dbPath t))[i]? = some ('#' :: l)) (n : Nat) :
    (splitLines ((patchEnv uni appURL dbPath)^[n + 1] t))[i]? = some ('#' :: l) := by
  induction n with
  | zero => simpa using h
  | succ n ih =>
    rw [Function.iterate_succ_apply', lines_patchEnv_getElem uni ha hd _ ih, patchLine_hash]

/-! ## Counting the lines of a key -/

theorem set_line_prefix_own (uni : Char → Bool) (re : LineRegex) (v l : Text)
    (hre : re.toEol = true) (hd : '$' ∉ re.lit) :
    re.lit.isPrefixOf (re.replaceLine uni (re.lit ++ v) l) = re.lit.isPrefixOf l := by
  rw [replaceLine_set_eq uni re _ v l rfl hre hd]
  split
  · rename_i h
    rw [h]
    exact prefix_self_append _ _
  · rfl

theorem set_line_prefix_other (uni : Char → Bool) (re : LineRegex) (v l : Text)
    (hre : re.toEol = true) (hd : '$' ∉ re.lit) {p : Text} (hp : Incomp re.lit p) :
    p.isPrefixOf (re.replaceLine uni (re.lit ++ v) l) = p.isPrefixOf l := by
  rw [replaceLine_set_eq uni re _ v l rfl hre hd]
  split
  · rename_i h
    rw [incomp_not_both hp h, incomp_not_both hp (prefix_self_append _ _)]
  · rfl

theorem comment_line_prefix_other (uni : Char → Bool) (re : LineRegex) (l : Text)
    (hre : re.toEol = false) (hd : '$' ∉ re.lit) {p : Text} (hp : Incomp re.lit p)
    (hk : p ∈ setKeys ++ commentKeys) :
    p.isPrefixOf (re.replaceLine uni ('#' :: re.lit) l) = p.isPrefixOf l := by
  rw [replaceLine_comment_eq uni re _ l rfl hre hd]
  split
  · rename_i h
    rw [incomp_not_both hp h, key_not_prefix_hash hk]
  · rfl

theorem countP_map_neutral (p : Text) (g : Text → Text) (ls : List Text)
    (h : ∀ l, p.isPrefixOf (g l) = p.isPrefixOf l) :
    (ls.map g).countP (fun l => p.isPrefixOf l) = ls.countP (fun l => p.isPrefixOf l) := by
  rw [List.countP_map]
  congr 1
  funext l
  exact h l

theorem countP_ruleLines_own (uni : Char → Bool) (re : LineRegex) (v : Text)
    (ls : List Text) (hre : re.toEol = true) (hd : '$' ∉ re.lit) :
    (ruleLines uni re (re.lit ++ v) ls).countP (fun l => re.lit.isPrefixOf l) =
      max 1 (ls.countP (fun l => re.lit.isPrefixOf l)) := by
  unfold ruleLines
  rw [List.countP_append,
    countP_map_neutral _ _ _ (fun l => set_line_prefix_own uni re v l hre hd)]
  split
  · rename_i h
    have hpos : 0 < ls.countP (fun l => re.lit.isPrefixOf l) := by
      obtain ⟨l, hl, hp⟩ := List.any_eq_true.1 h
      exact List.countP_pos_iff.2 ⟨l, hl, hp⟩
    simp only [List.countP_nil, Nat.add_zero]
    omega
  · rename_i h
    have hz : ls.countP (fun l => re.lit.isPrefixOf l) = 0 := by
      rw [List.countP_eq_zero]
      intro l hl hp
      exact h (List.any_eq_true.2 ⟨l, hl, hp⟩)
    rw [hz]
    simp [prefix_self_append]

theorem countP_ruleLines_other (uni : Char → Bool) (re : LineRegex) (v : Text)
    (ls : List Text) (hre : re.toEol = true) (hd : '$' ∉ re.lit) {p : Text}
    (hp : Incomp re.lit p) :
    (ruleLines uni re (re.lit ++ v) ls).countP (fun l => p.isPrefixOf l) =
      ls.countP (fun l => p.isPrefixOf l) := by
  unfold ruleLines
  rw [List.countP_append,
    countP_map_neutral _ _ _ (fun l => set_line_prefix_other uni re v l hre hd hp)]
  split
  · simp
  · simp [incomp_not_both hp (prefix_self_append re.lit v)]

theorem countP_comment_other (uni : Char → Bool) (re : LineRegex)
    (ls : List Text) (hre : re.toEol = false) (hd : '$' ∉ re.lit) {p : Text}
    (hp : Incomp re.lit p) (hk : p ∈ setKeys ++ commentKeys) :
    (ls.map (re.replaceLine uni ('#' :: re.lit))).countP (fun l => p.isPrefixOf l) =
      ls.countP (fun l => p.isPrefixOf l) :=
  countP_map_neutral _ _ _ (fun l => comment_line_prefix_other uni re l hre hd hp hk)

theorem countP_patchLines (uni : Char → Bool) (appURL dbPath : Text) (ls : List Text)
    {k : Text} (hk : k ∈ setKeys) :
    (patchLines uni appURL dbPath ls).countP (fun l => k.isPrefixOf l) =
      max 1 (ls.countP (fun l => k.isPrefixOf l)) := by
  have hkk : k ∈ setKeys ++ commentKeys := List.mem_append_left _ hk
  have c4 := fun (h : Incomp dbHostRegex.lit k) (xs : List Text) =>
    countP_comment_other uni dbHostRegex xs rfl (by decide) h hkk
  have c5 := fun (h : Incomp dbPortRegex.lit k) (xs : List Text) =>
    countP_comment_other uni dbPortRegex xs rfl (by decide) h hkk
  have c6 := fun (h : Incomp dbUserRegex.lit k) (xs : List Text) =>
    countP_comment_other uni dbUserRegex xs rfl (by decide) h hkk
  have c7 := fun (h : Incomp dbPassRegex.lit k) (xs : List Text) =>
    countP_comment_other uni dbPassRegex xs rfl (by decide) h hkk
  have s1own := countP_ruleLines_own uni appURLRegex appURL
  have s2own := countP_ruleLines_own uni dbConnRegex "sqlite".toList
  have s3own := countP_ruleLines_own uni dbDatabaseRegex dbPath
  have s1 := fun (h : Incomp appURLRegex.lit k) (xs : List Text) =>
    countP_ruleLines_other uni appURLRegex appURL xs rfl (by decide) h
  have s2 := fun (h : Incomp dbConnRegex.lit k) (xs : List Text) =>
    countP_ruleLines_other uni dbConnRegex "sqlite".toList xs rfl (by decide) h
  have s3 := fun (h : Incomp dbDatabaseRegex.lit k) (xs : List Text) =>
    countP_ruleLines_other uni dbDatabaseRegex dbPath xs rfl (by decide) h
  unfold patchLines
  simp only
  simp only [setKeys, List.mem_cons, List.mem_singleton, List.not_mem_nil, or_false] at hk
  rcases hk with rfl | rfl | rfl
  · exact (c7 (by decide) _).trans <| (c6 (by decide) _).trans <| (c5 (by decide) _).trans <|
      (c4 (by decide) _).trans <| (s3 (by decide) _).trans <| (s2 (by decide) _).trans <|
      s1own ls rfl (by decide)
  · exact (c7 (by decide) _).trans <| (c6 (by decide) _).trans <| (c5 (by decide) _).trans <|
      (c4 (by decide) _).trans <| (s3 (by decide) _).trans <|
      (s2own _ rfl (by decide)).trans <| congrArg (max 1) (s1 (by decide) ls)
  · exact (c7 (by decide) _).trans <| (c6 (by decide) _).trans <| (c5 (by decide) _).trans <|
      (c4 (by decide) _).trans <| (s3own _ rfl (by decide)).trans <|
      congrArg (max 1) ((s2 (by decide) _).trans (s1 (by decide) ls))

/-! ## Settled keys and idempotence for plain values -/

theorem settled_map {p t : Text} {ls : List Text} (g : Text → Text)
    (hg : ∀ l, p.isPrefixOf (g l) = p.isPrefixOf l)
    (hfix : ∀ l, p.isPrefixOf l = true → g l = l) (h : Settled p t ls) :
    Settled p t (ls.map g) := by
  obtain ⟨⟨l0, hl0, hp0⟩, hall⟩ := h
  refine ⟨⟨l0, List.mem_map.2 ⟨l0, hl0, hfix l0 hp0⟩, hp0⟩, ?_⟩
  intro l hl hp
  obtain ⟨l1, hl1, rfl⟩ := List.mem_map.1 hl
  rw [hg] at hp
  rw [hfix l1 hp]
  exact hall l1 hl1 hp

theorem settled_append {p t : Text} {ls extra : List Text}
    (he : ∀ l ∈ extra, p.isPrefixOf l = false) (h : Settled p t ls) :
    Settled p t (ls ++ extra) := by
  obtain ⟨⟨l0, hl0, hp0⟩, hall⟩ := h
  refine ⟨⟨l0, List.mem_append_left _ hl0, hp0⟩, ?_⟩
  intro l hl hp
  rcases List.mem_append.1 hl with hl | hl
  · exact hall l hl hp
  · rw [he l hl] at hp
    exact absurd hp (by decide)

theorem settled_ruleLines_own (uni : Char → Bool) (re : LineRegex) (v : Text)
    (ls : List Text) (hre : re.toEol = true) (hd : '$' ∉ re.lit) (hv : '$' ∉ v) :
    Settled re.lit (re.lit ++ v) (ruleLines uni re (re.lit ++ v) ls) := by
  unfold ruleLines
  constructor
  · by_cases h : ls.any (fun l => re.lit.isPrefixOf l) = true
    · obtain ⟨l, hl, hp⟩ := List.any_eq_true.1 h
      refine ⟨_, List.mem_append_left _ (List.mem_map_of_mem _ hl), ?_⟩
      rw [set_line_prefix_own uni re v l hre hd]
      exact hp
    · refine ⟨re.lit ++ v, ?_, prefix_self_append _ _⟩
      rw [if_neg h]
      simp
  · intro l hl hp
    rcases List.mem_append.1 hl with hl | hl
    · obtain ⟨l1, _, rfl⟩ := List.mem_map.1 hl
      rw [set_line_prefix_own uni re v l1 hre hd] at hp
      rw [replaceLine_set uni re v l1 hre hd hp, expand_of_no_dollar uni _ _ hv]
    · split at hl
      · simp at hl
      · simpa using hl

theorem settled_ruleLines_other (uni : Char → Bool) (re : LineRegex) (v : Text)
    {ls : List Text} (hre : re.toEol = true) (hd : '$' ∉ re.lit) {p t : Text}
    (hp : Incomp re.lit p) (h : Settled p t ls) :
    Settled p t (ruleLines uni re (re.lit ++ v) ls) := by
  have hp' : Incomp p re.lit := ⟨hp.2, hp.1⟩
  unfold ruleLines
  apply settled_append
  · intro l hl
    split at hl
    · simp at hl
    · have : l = re.lit ++ v := by simpa using hl
      subst this
      exact incomp_not_both hp (prefix_self_append _ _)
  · apply settled_map _ (fun l => set_line_prefix_other uni re v l hre hd hp) _ h
    intro l hl
    exact replaceLine_of_no_match uni re _ (incomp_not_both hp' hl)

theorem settled_comment (uni : Char → Bool) (re : LineRegex)
    {ls : List Text} (hre : re.toEol = false) (hd : '$' ∉ re.lit) {p t : Text}
    (hp : Incomp re.lit p) (hk : p ∈ setKeys ++ commentKeys) (h : Settled p t ls) :
    Settled p t (ls.map (re.replaceLine uni ('#' :: re.lit))) := by
  have hp' : Incomp p re.lit := ⟨hp.2, hp.1⟩
  apply settled_map _ (fun l => comment_line_prefix_other uni re l hre hd hp hk) _ h
  intro l hl
  exact replaceLine_of_no_match uni re _ (incomp_not_both hp' hl)

theorem ruleLines_of_settled (uni : Char → Bool) (re : LineRegex) (v : Text)
    {ls : List Text} (hre : re.toEol = true) (hd : '$' ∉ re.lit) (hv : '$' ∉ v)
    (h : Settled re.lit (re.lit ++ v) ls) :
    ruleLines uni re (re.lit ++ v) ls = ls := by
  obtain ⟨⟨l0, hl0, hp0⟩, hall⟩ := h
  unfold ruleLines
  rw [if_pos (List.any_eq_true.2 ⟨l0, hl0, hp0⟩), List.append_nil]
  have hmap : ∀ l ∈ ls, re.replaceLine uni (re.lit ++ v) l = id l := by
    intro l hl
    by_cases hp : re.lit.isPrefixOf l = true
    · rw [replaceLine_set uni re v l hre hd hp, expand_of_no_dollar uni _ _ hv]
      exact (hall l hl hp).symm
    · exact replaceLine_of_no_match uni re _ (Bool.eq_false_iff.2 hp)
  rw [List.map_congr_left hmap, List.map_id]

theorem map_comment_of_clear (uni : Char → Bool) (re : LineRegex) (repl : Text)
    {ls : List Text} (h : ∀ l ∈ ls, re.lit.isPrefixOf l = false) :
    ls.map (re.replaceLine uni repl) = ls := by
  have hmap : ∀ l ∈ ls, re.replaceLine uni repl l = id l :=
    fun l hl => replaceLine_of_no_match uni re _ (h l hl)
  rw [List.map_congr_left hmap, List.map_id]

theorem patchLines_clear (uni : Char → Bool) (appURL dbPath : Text) (ls : List Text)
    {k : Text} (hk : k ∈ commentKeys) :
    ∀ l ∈ patchLines uni appURL dbPath ls, k.isPrefixOf l = false := by
  intro l hl
  unfold patchLines at hl
  simp only [List.map_map, List.mem_map, Function.comp] at hl
  obtain ⟨l0, _, rfl⟩ := hl
  exact comment_chain_clear uni hk l0

theorem settled_comments (uni : Char → Bool) {p t : Text} {xs : List Text} (hk : p ∈ setKeys)
    (hs : Settled p t xs) :
    Settled p t
      ((((xs.map (dbHostRegex.replaceLine uni "#DB_HOST=".toList)).map
        (dbPortRegex.replaceLine uni "#DB_PORT=".toList)).map
        (dbUserRegex.replaceLine uni "#DB_USERNAME=".toList)).map
        (dbPassRegex.replaceLine uni "#DB_PASSWORD=".toList)) := by
  have hkk : p ∈ setKeys ++ commentKeys := List.mem_append_left _ hk
  have h4 : Incomp dbHostRegex.lit p := by
    simp only [setKeys, List.mem_cons, List.mem_singleton, List.not_mem_nil, or_false] at hk
    rcases hk with rfl | rfl | rfl <;> decide
  have h5 : Incomp dbPortRegex.lit p := by
    simp only [setKeys, List.mem_cons, List.mem_singleton, List.not_mem_nil, or_false] at hk
    rcases hk with rfl | rfl | rfl <;> decide
  have h6 : Incomp dbUserRegex.lit p := by
    simp only [setKeys, List.mem_cons, List.mem_singleton, List.not_mem_nil, or_false] at hk
    rcases hk with rfl | rfl | rfl <;> decide
  have h7 : Incomp dbPassRegex.lit p := by
    simp only [setKeys, List.mem_cons, List.mem_singleton, List.not_mem_nil, or_false] at hk
    rcases hk with rfl | rfl | rfl <;> decide
  exact settled_comment uni dbPassRegex rfl (by decide) h7 hkk
    (settled_comment uni dbUserRegex rfl (by decide) h6 hkk
      (settled_comment uni dbPortRegex rfl (by decide) h5 hkk
        (settled_comment uni dbHostRegex rfl (by decide) h4 hkk hs)))

theorem patchLines_settled_appurl (uni : Char → Bool) {appURL : Text} (dbPath : Text)
    (ha : '$' ∉ appURL) (ls : List Text) :
    Settled appURLRegex.lit (appURLRegex.lit ++ appURL) (patchLines uni appURL dbPath ls) := by
  refine settled_comments uni (by decide) ?_
  refine settled_ruleLines_other uni dbDatabaseRegex dbPath rfl (by decide) (by decide) ?_
  refine settled_ruleLines_other uni dbConnRegex "sqlite".toList rfl (by decide) (by decide) ?_
  exact settled_ruleLines_own uni appURLRegex appURL ls rfl (by decide) ha

theorem patchLines_settled_conn (uni : Char → Bool) (appURL dbPath : Text) (ls : List Text) :
    Settled dbConnRegex.lit (dbConnRegex.lit ++ "sqlite".toList)
      (patchLines uni appURL dbPath ls) := by
  refine settled_comments uni (by decide) ?_
  refine settled_ruleLines_other uni dbDatabaseRegex dbPath rfl (by decide) (by decide) ?_
  exact settled_ruleLines_own uni dbConnRegex "sqlite".toList _ rfl (by decide) (by decide)

theorem patchLines_settled_database (uni : Char → Bool) (appURL : Text) {dbPath : Text}
    (hd : '$' ∉ dbPath) (ls : List Text) :
    Settled dbDatabaseRegex.lit (dbDatabaseRegex.lit ++ dbPath)
      (patchLines uni appURL dbPath ls) := by
  refine settled_comments uni (by decide) ?_
  exact settled_ruleLines_own uni dbDatabaseRegex dbPath _ rfl (by decide) hd

theorem patchLines_idempotent (uni : Char → Bool) {appURL dbPath : Text}
    (ha : '$' ∉ appURL) (hd : '$' ∉ dbPath) (ls : List Text) :
    patchLines uni appURL dbPath (patchLines uni appURL dbPath ls) =
      patchLines uni appURL dbPath ls := by
  have h1 := patchLines_settled_appurl uni dbPath ha ls
  have h2 := patchLines_settled_conn uni appURL dbPath ls
  have h3 := patchLines_settled_database uni appURL hd ls
  have k4 := patchLines_clear uni appURL dbPath ls (k := dbHostRegex.lit) (by decide)
  have k5 := patchLines_clear uni appURL dbPath ls (k := dbPortRegex.lit) (by decide)
  have k6 := patchLines_clear uni appURL dbPath ls (k := dbUserRegex.lit) (by decide)
  have k7 := patchLines_clear uni appURL dbPath ls (k := dbPassRegex.lit) (by decide)
  generalize patchLines uni appURL dbPath ls = xs at h1 h2 h3 k4 k5 k6 k7
  have e1 : ruleLines uni appURLRegex ("APP_URL=".toList ++ appURL) xs = xs :=
    ruleLines_of_settled uni appURLRegex appURL rfl (by decide) ha h1
  have e2 : ruleLines uni dbConnRegex "DB_CONNECTION=sqlite".toList xs = xs :=
    ruleLines_of_settled uni dbConnRegex "sqlite".toList rfl (by decide) (by decide) h2
  have e3 : ruleLines uni dbDatabaseRegex ("DB_DATABASE=".toList ++ dbPath) xs = xs :=
    ruleLines_of_settled uni dbDatabaseRegex dbPath rfl (by decide) hd h3
  unfold patchLines
  simp only
  rw [e1, e2, e3, map_comment_of_clear uni dbHostRegex _ k4,
    map_comment_of_clear uni dbPortRegex _ k5, map_comment_of_clear uni dbUserRegex _ k6,
    map_comment_of_clear uni dbPassRegex _ k7]

/-- For a URL and a database path free of `$` and of line feeds, patching a
patched text changes nothing. -/
theorem patchEnv_idempotent_of_plain (uni : Char → Bool) {appURL dbPath : Text}
    (ha : '$' ∉ appURL) (ha' : '\n' ∉ appURL) (hd : '$' ∉ dbPath) (hd' : '\n' ∉ dbPath)
    (t : Text) :
    patchEnv uni appURL dbPath (patchEnv uni appURL dbPath t) = patchEnv uni appURL dbPath t := by
  rw [← joinLines_splitLines (patchEnv uni appURL dbPath (patchEnv uni appURL dbPath t)),
    lines_patchEnv uni ha' hd', lines_patchEnv uni ha' hd', patchLines_idempotent uni ha hd,
    ← lines_patchEnv uni ha' hd', joinLines_splitLines]

/-- For a URL free of `$` and line feeds (and a database path free of line
feeds), the patched text has the line `APP_URL=<url>`. -/
theorem patchEnv_has_appurl_of_plain (uni : Char → Bool) {appURL dbPath : Text}
    (ha : '$' ∉ appURL) (ha' : '\n' ∉ appURL) (hd' : '\n' ∉ dbPath) (t : Text) :
    "APP_URL=".toList ++ appURL ∈ splitLines (patchEnv uni appURL dbPath t) := by
  rw [lines_patchEnv uni ha' hd']
  obtain ⟨⟨l, hl, hp⟩, hall⟩ := patchLines_settled_appurl uni dbPath ha (splitLines t)
  have := hall l hl hp
  subst this
  exact hl

/-! ## Lines are never lost, whatever the values -/

theorem length_le_splitLines_joinLines {ls : List Text} (hne : ls ≠ []) :
    ls.length ≤ (splitLines (joinLines ls)).length := by
  induction ls with
  | nil => exact absurd rfl hne
  | cons l ls ih =>
    cases ls with
    | nil =>
      have := List.length_pos.2 (splitLines_ne_nil l)
      simpa [joinLines] using this
    | cons l' ls =>
      rw [joinLines_cons_cons, splitLines_append_nl, List.length_append]
      have h1 := List.length_pos.2 (splitLines_ne_nil l)
      have h2 := ih (by simp)
      simp only [List.length_cons] at h2 ⊢
      omega

theorem mem_splitLines_joinLines {ls : List Text} {l : Text} (hl : l ∈ ls)
    (hnl : '\n' ∉ l) : l ∈ splitLines (joinLines ls) := by
  induction ls with
  | nil => simp at hl
  | cons a ls ih =>
    cases ls with
    | nil =>
      have : l = a := by simpa using hl
      subst this
      simp [joinLines, splitLines_of_no_nl hnl]
    | cons l' ls =>
      rw [joinLines_cons_cons, splitLines_append_nl]
      rcases List.mem_cons.1 hl with e | e
      · subst e
        rw [splitLines_of_no_nl hnl]
        simp
      · exact List.mem_append_right _ (ih e)

theorem replaceAllString_length (uni : Char → Bool) (re : LineRegex) (src repl : Text) :
    (splitLines src).length ≤ (splitLines (re.replaceAllString uni src repl)).length := by
  unfold LineRegex.replaceAllString
  have hne : (splitLines src).map (re.replaceLine uni repl) ≠ [] := by
    simp [splitLines_ne_nil]
  have := length_le_splitLines_joinLines hne
  simpa using this

theorem replaceAllString_mem (uni : Char → Bool) (re : LineRegex) (src repl : Text)
    {l : Text} (hl : l ∈ splitLines src) (hp : re.lit.isPrefixOf l = false) :
    l ∈ splitLines (re.replaceAllString uni src repl) := by
  unfold LineRegex.replaceAllString
  apply mem_splitLines_joinLines _ (mem_splitLines_no_nl hl)
  exact List.mem_map.2 ⟨l, hl, replaceLine_of_no_match uni re repl hp⟩

theorem replaceOrAppend_length (uni : Char → Bool) (re : LineRegex) (line t : Text) :
    (splitLines t).length ≤ (splitLines (replaceOrAppend uni re line t)).length := by
  unfold replaceOrAppend
  split
  · exact replaceAllString_length uni re t line
  · rw [splitLines_append_nl, List.length_append]
    omega

theorem replaceOrAppend_mem (uni : Char → Bool) (re : LineRegex) (line t : Text)
    {l : Text} (hl : l ∈ splitLines t) (hp : re.lit.isPrefixOf l = false) :
    l ∈ splitLines (replaceOrAppend uni re line t) := by
  unfold replaceOrAppend
  split
  · exact replaceAllString_mem uni re t line hl hp
  · rw [splitLines_append_nl]
    exact List.mem_append_left _ hl

theorem patchEnv_length (uni : Char → Bool) (appURL dbPath t : Text) :
    (splitLines t).length ≤ (splitLines (patchEnv uni appURL dbPath t)).length := by
  unfold patchEnv
  simp only
  exact (replaceOrAppend_length uni _ _ _).trans <|
    (replaceOrAppend_length uni _ _ _).trans <|
    (replaceOrAppend_length uni _ _ _).trans <|
    (replaceAllString_length uni _ _ _).trans <|
    (replaceAllString_length uni _ _ _).trans <|
    (replaceAllString_length uni _ _ _).trans <|
    replaceAllString_length uni _ _ _

theorem patchEnv_mem (uni : Char → Bool) (appURL dbPath t : Text) {l : Text}
    (hl : l ∈ splitLines t) (h : ∀ k ∈ setKeys ++ commentKeys, k.isPrefixOf l = false) :
    l ∈ splitLines (patchEnv uni appURL dbPath t) := by
  have h1 : appURLRegex.lit.isPrefixOf l = false := h _ (by decide)
  have h2 : dbConnRegex.lit.isPrefixOf l = false := h _ (by decide)
  have h3 : dbDatabaseRegex.lit.isPrefixOf l = false := h _ (by decide)
  have h4 : dbHostRegex.lit.isPrefixOf l = false := h _ (by decide)
  have h5 : dbPortRegex.lit.isPrefixOf l = false := h _ (by decide)
  have h6 : dbUserRegex.lit.isPrefixOf l = false := h _ (by decide)
  have h7 : dbPassRegex.lit.isPrefixOf l = false := h _ (by decide)
  unfold patchEnv
  simp only
  apply replaceAllString_mem uni _ _ _ _ h7
  apply replaceAllString_mem uni _ _ _ _ h6
  apply replaceAllString_mem uni _ _ _ _ h5
  apply replaceAllString_mem uni _ _ _ _ h4
  apply replaceOrAppend_mem uni _ _ _ _ h3
  apply replaceOrAppend_mem uni _ _ _ _ h2
  exact replaceOrAppend_mem uni _ _ _ hl h1

/-! ## Lines kept in their order, whatever the values -/

theorem sublist_splitLines_joinLines {T ms : List Text} (h : List.Sublist T ms)
    (hT : ∀ l ∈ T, '\n' ∉ l) : List.Sublist T (splitLines (joinLines ms)) := by
  induction h with
  | slnil => exact List.nil_sublist _
  | @cons T ms' a h ih =>
    cases ms' with
    | nil =>
      have : T = [] := List.eq_nil_of_sublist_nil h
      subst this
      exact List.nil_sublist _
    | cons b ms'' =>
      rw [joinLines_cons_cons, splitLines_append_nl]
      exact List.sublist_append_of_sublist_right (ih hT)
  | @cons₂ T ms' a h ih =>
    have ha : '\n' ∉ a := hT a (List.mem_cons_self _ _)
    have hT' : ∀ l ∈ T, '\n' ∉ l := fun l hl => hT l (List.mem_cons_of_mem _ hl)
    cases ms' with
    | nil =>
      have : T = [] := List.eq_nil_of_sublist_nil h
      subst this
      simp [joinLines, splitLines_of_no_nl ha]
    | cons b ms'' =>
      rw [joinLines_cons_cons, splitLines_append_nl, splitLines_of_no_nl ha]
      exact (ih hT').cons₂ a

theorem map_eq_self_of_fixed {g : Text → Text} {T : List Text} (h : ∀ l ∈ T, g l = l) :
    T.map g = T := by
  have hmap : ∀ l ∈ T, g l = id l := h
  rw [List.map_congr_left hmap, List.map_id]

theorem replaceAllString_sublist (uni : Char → Bool) (re : LineRegex) (src repl : Text)
    {T : List Text} (h : List.Sublist T (splitLines src))
    (hfix : ∀ l ∈ T, re.replaceLine uni repl l = l) :
    List.Sublist T (splitLines (re.replaceAllString uni src repl)) := by
  unfold LineRegex.replaceAllString
  apply sublist_splitLines_joinLines
  · have := h.map (re.replaceLine uni repl)
    rwa [map_eq_self_of_fixed hfix] at this
  · exact fun l hl => mem_splitLines_no_nl (h.subset hl)

theorem replaceOrAppend_sublist (uni : Char → Bool) (re : LineRegex) (line t : Text)
    {T : List Text} (h : List.Sublist T (splitLines t))
    (hfix : ∀ l ∈ T, re.replaceLine uni line l = l) :
    List.Sublist T (splitLines (replaceOrAppend uni re line t)) := by
  unfold replaceOrAppend
  split
  · exact replaceAllString_sublist uni re t line h hfix
  · rw [splitLines_append_nl]
    exact h.trans (List.sublist_append_left _ _)

theorem replaceAllString_sublist_map (uni : Char → Bool) (re : LineRegex) (src : Text)
    {repl : Text} (hr : '\n' ∉ repl) {T : List Text} (h : List.Sublist T (splitLines src)) :
    List.Sublist (T.map (re.replaceLine uni repl))
      (splitLines (re.replaceAllString uni src repl)) := by
  rw [lines_replaceAllString uni re src hr]
  exact h.map _

theorem patchLine_of_no_set_key (uni : Char → Bool) (appURL dbPath : Text) {l : Text}
    (h : ∀ k ∈ setKeys, k.isPrefixOf l = false) :
    patchLine uni appURL dbPath l =
      dbPassRegex.replaceLine uni "#DB_PASSWORD=".toList
        (dbUserRegex.replaceLine uni "#DB_USERNAME=".toList
          (dbPortRegex.replaceLine uni "#DB_PORT=".toList
            (dbHostRegex.replaceLine uni "#DB_HOST=".toList l))) := by
  have h1 : appURLRegex.lit.isPrefixOf l = false := h _ (by decide)
  have h2 : dbConnRegex.lit.isPrefixOf l = false := h _ (by decide)
  have h3 : dbDatabaseRegex.lit.isPrefixOf l = false := h _ (by decide)
  unfold patchLine
  simp only
  rw [replaceLine_of_no_match uni _ _ h1, replaceLine_of_no_match uni _ _ h2,
    replaceLine_of_no_match uni _ _ h3]

/-- Input lines that begin with none of the three replaced keys come out, in
their order, each as the patch makes it. -/
theorem patchEnv_sublist (uni : Char → Bool) (appURL dbPath t : Text) {T : List Text}
    (h : List.Sublist T (splitLines t))
    (hT : ∀ l ∈ T, ∀ k ∈ setKeys, k.isPrefixOf l = false) :
    List.Sublist (T.map (patchLine uni appURL dbPath))
      (splitLines (patchEnv uni appURL dbPath t)) := by
  have h1 : ∀ l ∈ T, appURLRegex.replaceLine uni ("APP_URL=".toList ++ appURL) l = l :=
    fun l hl => replaceLine_of_no_match uni _ _ (hT l hl _ (by decide))
  have h2 : ∀ l ∈ T, dbConnRegex.replaceLine uni "DB_CONNECTION=sqlite".toList l = l :=
    fun l hl => replaceLine_of_no_match uni _ _ (hT l hl _ (by decide))
  have h3 : ∀ l ∈ T, dbDatabaseRegex.replaceLine uni ("DB_DATABASE=".toList ++ dbPath) l = l :=
    fun l hl => replaceLine_of_no_match uni _ _ (hT l hl _ (by decide))
  have hmap : T.map (patchLine uni appURL dbPath) =
      (((T.map (dbHostRegex.replaceLine uni "#DB_HOST=".toList)).map
        (dbPortRegex.replaceLine uni "#DB_PORT=".toList)).map
        (dbUserRegex.replaceLine uni "#DB_USERNAME=".toList)).map
        (dbPassRegex.replaceLine uni "#DB_PASSWORD=".toList) := by
    simp only [List.map_map]
    apply List.map_congr_left
    intro l hl
    rw [patchLine_of_no_set_key uni appURL dbPath (hT l hl)]
    rfl
  rw [hmap]
  unfold patchEnv
  simp only
  apply replaceAllString_sublist_map uni _ _ (by decide)
  apply replaceAllString_sublist_map uni _ _ (by decide)
  apply replaceAllString_sublist_map uni _ _ (by decide)
  apply replaceAllString_sublist_map uni _ _ (by decide)
  apply replaceOrAppend_sublist uni _ _ _ _ h3
  apply replaceOrAppend_sublist uni _ _ _ _ h2
  exact replaceOrAppend_sublist uni _ _ _ h h1

theorem comment_key_no_set_key {k l : Text} (hk : k ∈ commentKeys)
    (hp : k.isPrefixOf l = true) : ∀ s ∈ setKeys, s.isPrefixOf l = false := by
  intro s hs
  simp only [commentKeys, List.mem_cons, List.mem_singleton, List.not_mem_nil, or_false] at hk
  simp only [setKeys, List.mem_cons, List.mem_singleton, List.not_mem_nil, or_false] at hs
  rcases hk with rfl | rfl | rfl | rfl <;> rcases hs with rfl | rfl | rfl <;>
    exact incomp_not_both (by decide) hp

theorem patchEnv_sublist_commented (uni : Char → Bool) (appURL dbPath t : Text) {k : Text}
    (hk : k ∈ commentKeys) :
    List.Sublist (((splitLines t).filter (fun l => k.isPrefixOf l)).map (fun l => '#' :: l))
      (splitLines (patchEnv uni appURL dbPath t)) := by
  have hsub := patchEnv_sublist uni appURL dbPath t
    (List.filter_sublist (p := fun l => k.isPrefixOf l) (splitLines t))
    (fun l hl => comment_key_no_set_key hk (List.mem_filter.1 hl).2)
  have hmap : ((splitLines t).filter (fun l => k.isPrefixOf l)).map
      (patchLine uni appURL dbPath) =
      ((splitLines t).filter (fun l => k.isPrefixOf l)).map (fun l => '#' :: l) := by
    apply List.map_congr_left
    intro l hl
    obtain ⟨v, rfl⟩ := List.isPrefixOf_iff_prefix.1 (List.mem_filter.1 hl).2
    exact patchLine_comment_key uni appURL dbPath hk v
  rwa [hmap] at hsub

theorem patchEnv_sublist_hash (uni : Char → Bool) (appURL dbPath t : Text) {T : List Text}
    (h : List.Sublist (T.map (fun l => '#' :: l)) (splitLines t)) :
    List.Sublist (T.map (fun l => '#' :: l)) (splitLines (patchEnv uni appURL dbPath t)) := by
  have hsub := patchEnv_sublist uni appURL dbPath t h (by
    intro l hl k hk
    obtain ⟨l0, _, rfl⟩ := List.mem_map.1 hl
    exact key_not_prefix_hash (List.mem_append_left _ hk) l0)
  have hmap : (T.map (fun l => '#' :: l)).map (patchLine uni appURL dbPath) =
      T.map (fun l => '#' :: l) := by
    apply map_eq_self_of_fixed
    intro l hl
    obtain ⟨l0, _, rfl⟩ := List.mem_map.1 hl
    exact patchLine_hash uni appURL dbPath l0
  rwa [hmap] at hsub

theorem patchEnv_iterate_sublist_commented (uni : Char → Bool) (appURL dbPath t : Text)
    {k : Text} (hk : k ∈ commentKeys) (n : Nat) :
    List.Sublist (((splitLines t).filter (fun l => k.isPrefixOf l)).map (fun l => '#' :: l))
      (splitLines ((patchEnv uni appURL dbPath)^[n + 1] t)) := by
  induction n with
  | zero =>
    rw [Function.iterate_succ_apply', Function.iterate_zero_apply]
    exact patchEnv_sublist_commented uni appURL dbPath t hk
  | succ n ih =>
    rw [Function.iterate_succ_apply']
    exact patchEnv_sublist_hash uni appURL dbPath _ ih

theorem patchEnv_sublist_frame (uni : Char → Bool) (appURL dbPath t : Text) :
    List.Sublist
      ((splitLines t).filter (fun l => (setKeys ++ commentKeys).all fun k => !k.isPrefixOf l))
      (splitLines (patchEnv uni appURL dbPath t)) := by
  have hno : ∀ l ∈ (splitLines t).filter
      (fun l => (setKeys ++ commentKeys).all fun k => !k.isPrefixOf l),
      ∀ k ∈ setKeys ++ commentKeys, k.isPrefixOf l = false := by
    intro l hl k hk
    have := (List.mem_filter.1 hl).2
    rw [List.all_eq_true] at this
    simpa using this k hk
  have hsub := patchEnv_sublist uni appURL dbPath t (List.filter_sublist _)
    (fun l hl k hk => hno l hl k (List.mem_append_left _ hk))
  rwa [map_eq_self_of_fixed
    (fun l hl => patchLine_of_no_key uni appURL dbPath (hno l hl))] at hsub


/-! ## What the patch does to the lines of a replaced key -/

theorem set_line_neutral (uni : Char → Bool) (re : LineRegex) (v l : Text)
    (hre : re.toEol = true) (hd : '$' ∉ re.lit) {k : Text}
    (h : k = re.lit ∨ Incomp re.lit k) :
    k.isPrefixOf (re.replaceLine uni (re.lit ++ v) l) = k.isPrefixOf l := by
  rcases h with rfl | h
  · exact set_line_prefix_own uni re v l hre hd
  · exact set_line_prefix_other uni re v l hre hd h

theorem patchLine_neutral (uni : Char → Bool) (appURL dbPath : Text) {k : Text}
    (hk : k ∈ setKeys) (l : Text) :
    k.isPrefixOf (patchLine uni appURL dbPath l) = k.isPrefixOf l := by
  have hkk : k ∈ setKeys ++ commentKeys := List.mem_append_left _ hk
  have i1 : k = appURLRegex.lit ∨ Incomp appURLRegex.lit k := by
    simp only [setKeys, List.mem_cons, List.mem_singleton, List.not_mem_nil, or_false] at hk
    rcases hk with rfl | rfl | rfl
    · exact Or.inl rfl
    · exact Or.inr (by decide)
    · exact Or.inr (by decide)
  have i2 : k = dbConnRegex.lit ∨ Incomp dbConnRegex.lit k := by
    simp only [setKeys, List.mem_cons, List.mem_singleton, List.not_mem_nil, or_false] at hk
    rcases hk with rfl | rfl | rfl
    · exact Or.inr (by decide)
    · exact Or.inl rfl
    · exact Or.inr (by decide)
  have i3 : k = dbDatabaseRegex.lit ∨ Incomp dbDatabaseRegex.lit k := by
    simp only [setKeys, List.mem_cons, List.mem_singleton, List.not_mem_nil, or_false] at hk
    rcases hk with rfl | rfl | rfl
    · exact Or.inr (by decide)
    · exact Or.inr (by decide)
    · exact Or.inl rfl
  have i4 : Incomp dbHostRegex.lit k := by
    simp only [setKeys, List.mem_cons, List.mem_singleton, List.not_mem_nil, or_false] at hk
    rcases hk with rfl | rfl | rfl <;> decide
  have i5 : Incomp dbPortRegex.lit k := by
    simp only [setKeys, List.mem_cons, List.mem_singleton, List.not_mem_nil, or_false] at hk
    rcases hk with rfl | rfl | rfl <;> decide
  have i6 : Incomp dbUserRegex.lit k := by
    simp only [setKeys, List.mem_cons, List.mem_singleton, List.not_mem_nil, or_false] at hk
    rcases hk with rfl | rfl | rfl <;> decide
  have i7 : Incomp dbPassRegex.lit k := by
    simp only [setKeys, List.mem_cons, List.mem_singleton, List.not_mem_nil, or_false] at hk
    rcases hk with rfl | rfl | rfl <;> decide
  unfold patchLine
  simp only
  exact (comment_line_prefix_other uni dbPassRegex _ rfl (by decide) i7 hkk).trans <|
    (comment_line_prefix_other uni dbUserRegex _ rfl (by decide) i6 hkk).trans <|
    (comment_line_prefix_other uni dbPortRegex _ rfl (by decide) i5 hkk).trans <|
    (comment_line_prefix_other uni dbHostRegex _ rfl (by decide) i4 hkk).trans <|
    (set_line_neutral uni dbDatabaseRegex dbPath _ rfl (by decide) i3).trans <|
    (set_line_neutral uni dbConnRegex "sqlite".toList _ rfl (by decide) i2).trans <|
    set_line_neutral uni appURLRegex appURL l rfl (by decide) i1

theorem comment_fixes_set_line (uni : Char → Bool) {k : Text} (hk : k ∈ setKeys) (x : Text) :
    dbPassRegex.replaceLine uni "#DB_PASSWORD=".toList
        (dbUserRegex.replaceLine uni "#DB_USERNAME=".toList
          (dbPortRegex.replaceLine uni "#DB_PORT=".toList
            (dbHostRegex.replaceLine uni "#DB_HOST=".toList (k ++ x)))) = k ++ x := by
  have hp := prefix_self_append k x
  have n4 : dbHostRegex.lit.isPrefixOf (k ++ x) = false := by
    simp only [setKeys, List.mem_cons, List.mem_singleton, List.not_mem_nil, or_false] at hk
    rcases hk with rfl | rfl | rfl <;> exact incomp_not_both (by decide) hp
  have n5 : dbPortRegex.lit.isPrefixOf (k ++ x) = false := by
    simp only [setKeys, List.mem_cons, List.mem_singleton, List.not_mem_nil, or_false] at hk
    rcases hk with rfl | rfl | rfl <;> exact incomp_not_both (by decide) hp
  have n6 : dbUserRegex.lit.isPrefixOf (k ++ x) = false := by
    simp only [setKeys, List.mem_cons, List.mem_singleton, List.not_mem_nil, or_false] at hk
    rcases hk with rfl | rfl | rfl <;> exact incomp_not_both (by decide) hp
  have n7 : dbPassRegex.lit.isPrefixOf (k ++ x) = false := by
    simp only [setKeys, List.mem_cons, List.mem_singleton, List.not_mem_nil, or_false] at hk
    rcases hk with rfl | rfl | rfl <;> exact incomp_not_both (by decide) hp
  rw [replaceLine_of_no_match uni _ _ n4, replaceLine_of_no_match uni _ _ n5,
    replaceLine_of_no_match uni _ _ n6, replaceLine_of_no_match uni _ _ n7]

/-- A line that begins with one of the three replaced keys becomes the key
followed by the expansion of the value of that key. -/
theorem patchLine_set_key (uni : Char → Bool) (appURL dbPath : Text) {k l : Text}
    (hk : k ∈ setKeys) (hp : k.isPrefixOf l = true) :
    patchLine uni appURL dbPath l = k ++ expand uni (setValue appURL dbPath k) l := by
  have hk' := hk
  unfold patchLine
  simp only
  simp only [setKeys, List.mem_cons, List.mem_singleton, List.not_mem_nil, or_false] at hk
  rcases hk with rfl | rfl | rfl
  · have c1 : appURLRegex.replaceLine uni ("APP_URL=".toList ++ appURL) l =
        "APP_URL=".toList ++ expand uni appURL l :=
      replaceLine_set uni appURLRegex appURL l rfl (by decide) hp
    have hq := prefix_self_append "APP_URL=".toList (expand uni appURL l)
    have c2 : dbConnRegex.lit.isPrefixOf ("APP_URL=".toList ++ expand uni appURL l) = false :=
      incomp_not_both (by decide) hq
    have c3 : dbDatabaseRegex.lit.isPrefixOf ("APP_URL=".toList ++ expand uni appURL l) =
        false := incomp_not_both (by decide) hq
    rw [c1, replaceLine_of_no_match uni _ _ c2, replaceLine_of_no_match uni _ _ c3,
      comment_fixes_set_line uni hk']
    simp [setValue]
  · have c1 : appURLRegex.lit.isPrefixOf l = false := incomp_not_both (by decide) hp
    have c2 : dbConnRegex.replaceLine uni "DB_CONNECTION=sqlite".toList l =
        "DB_CONNECTION=".toList ++ expand uni "sqlite".toList l :=
      replaceLine_set uni dbConnRegex "sqlite".toList l rfl (by decide) hp
    have hq := prefix_self_append "DB_CONNECTION=".toList (expand uni "sqlite".toList l)
    have c3 : dbDatabaseRegex.lit.isPrefixOf
        ("DB_CONNECTION=".toList ++ expand uni "sqlite".toList l) = false :=
      incomp_not_both (by decide) hq
    rw [replaceLine_of_no_match uni _ _ c1, c2, replaceLine_of_no_match uni _ _ c3,
      comment_fixes_set_line uni hk']
    simp [setValue]
  · have c1 : appURLRegex.lit.isPrefixOf l = false := incomp_not_both (by decide) hp
    have c2 : dbConnRegex.lit.isPrefixOf l = false := incomp_not_both (by decide) hp
    have c3 : dbDatabaseRegex.replaceLine uni ("DB_DATABASE=".toList ++ dbPath) l =
        "DB_DATABASE=".toList ++ expand uni dbPath l :=
      replaceLine_set uni dbDatabaseRegex dbPath l rfl (by decide) hp
    rw [replaceLine_of_no_match uni _ _ c1, replaceLine_of_no_match uni _ _ c2, c3,
      comment_fixes_set_line uni hk']
    simp [setValue]


/-! ## The line appended for an absent key -/

theorem any_false_of_countP_zero {p : Text} {ls : List Text}
    (h : ls.countP (fun l => p.isPrefixOf l) = 0) :
    ls.any (fun l => p.isPrefixOf l) = false := by
  rw [List.countP_eq_zero] at h
  rw [Bool.eq_false_iff]
  intro hany
  obtain ⟨l, hl, hp⟩ := List.any_eq_true.1 hany
  exact h l hl hp

theorem mem_ruleLines_appended (uni : Char → Bool) (re : LineRegex) (line : Text)
    {ls : List Text} (h : ls.countP (fun l => re.lit.isPrefixOf l) = 0) :
    line ∈ ruleLines uni re line ls := by
  unfold ruleLines
  rw [any_false_of_countP_zero h]
  simp

theorem mem_ruleLines_of_fixed (uni : Char → Bool) (re : LineRegex) (line : Text)
    {ls : List Text} {x : Text} (hx : x ∈ ls) (hfix : re.replaceLine uni line x = x) :
    x ∈ ruleLines uni re line ls := by
  unfold ruleLines
  exact List.mem_append_left _ (List.mem_map.2 ⟨x, hx, hfix⟩)

theorem mem_comments_of_set_line (uni : Char → Bool) {k : Text} (hk : k ∈ setKeys)
    (x : Text) {ls : List Text} (hx : k ++ x ∈ ls) :
    k ++ x ∈ (((ls.map (dbHostRegex.replaceLine uni "#DB_HOST=".toList)).map
        (dbPortRegex.replaceLine uni "#DB_PORT=".toList)).map
        (dbUserRegex.replaceLine uni "#DB_USERNAME=".toList)).map
        (dbPassRegex.replaceLine uni "#DB_PASSWORD=".toList) := by
  simp only [List.map_map]
  exact List.mem_map.2 ⟨k ++ x, hx, comment_fixes_set_line uni hk x⟩

theorem patchLines_appended (uni : Char → Bool) (appURL dbPath : Text) {k : Text}
    (hk : k ∈ setKeys) {ls : List Text} (h : ls.countP (fun l => k.isPrefixOf l) = 0) :
    k ++ setValue appURL dbPath k ∈ patchLines uni appURL dbPath ls := by
  have hk' := hk
  unfold patchLines
  simp only
  simp only [setKeys, List.mem_cons, List.mem_singleton, List.not_mem_nil, or_false] at hk
  rcases hk with rfl | rfl | rfl
  · have hv : setValue appURL dbPath "APP_URL=".toList = appURL := by simp [setValue]
    rw [hv]
    have hq := prefix_self_append "APP_URL=".toList appURL
    apply mem_comments_of_set_line uni hk'
    apply mem_ruleLines_of_fixed uni _ _ _
      (replaceLine_of_no_match uni _ _ (incomp_not_both (by decide) hq))
    apply mem_ruleLines_of_fixed uni _ _ _
      (replaceLine_of_no_match uni _ _ (incomp_not_both (by decide) hq))
    exact mem_ruleLines_appended uni appURLRegex _ h
  · have hv : setValue appURL dbPath "DB_CONNECTION=".toList = "sqlite".toList := by
      simp [setValue]
    rw [hv]
    have hq := prefix_self_append "DB_CONNECTION=".toList "sqlite".toList
    apply mem_comments_of_set_line uni hk'
    apply mem_ruleLines_of_fixed uni _ _ _
      (replaceLine_of_no_match uni _ _ (incomp_not_both (by decide) hq))
    apply mem_ruleLines_appended uni dbConnRegex ("DB_CONNECTION=".toList ++ "sqlite".toList)
    exact (countP_ruleLines_other uni appURLRegex appURL ls rfl (by decide)
      (by decide)).trans h
  · have hv : setValue appURL dbPath "DB_DATABASE=".toList = dbPath := by simp [setValue]
    rw [hv]
    apply mem_comments_of_set_line uni hk'
    apply mem_ruleLines_appended uni dbDatabaseRegex ("DB_DATABASE=".toList ++ dbPath)
    exact (countP_ruleLines_other uni dbConnRegex "sqlite".toList _ rfl (by decide)
      (by decide)).trans
        ((countP_ruleLines_other uni appURLRegex appURL ls rfl (by decide) (by decide)).trans h)


/-! ## Claims on commenting out and on the frame -/

/-- For a URL and a database path without a line feed, every input line
`KEY=value` of a commented-out key is exactly `#KEY=value` at the same index
after any number `n ≥ 1` of patches. -/
theorem patchEnv_comments_out_at_index (uni : Char → Bool) (appURL dbPath text key : Text)
    (hk : key ∈ commentKeys) (n : Nat) (hn : 1 ≤ n) (ha : '\n' ∉ appURL)
    (hd : '\n' ∉ dbPath) (i : Nat) (value : Text)
    (h : (splitLines text)[i]? = some (key ++ value)) :
    (splitLines ((patchEnv uni appURL dbPath)^[n] text))[i]? =
      some ('#' :: (key ++ value)) := by
  obtain ⟨m, rfl⟩ : ∃ m, n = m + 1 := ⟨n - 1, by omega⟩
  apply lines_iterate_hash uni ha hd
  rw [lines_patchEnv_getElem uni ha hd _ h, patchLine_comment_key uni appURL dbPath hk]

/-- C5. For each of `DB_HOST=`, `DB_PORT=`, `DB_USERNAME=`, `DB_PASSWORD=`,
every input text, every URL and database path and every number `n ≥ 1` of
patches: no line of the result begins with the key, and the input lines
`KEY=value`, each with exactly one `#` put in front (`#KEY=value`, value
preserved), are lines of the result in their order: none is removed. -/
theorem patchEnv_comments_out (uni : Char → Bool) (appURL dbPath text key : Text)
    (hk : key ∈ commentKeys) (n : Nat) (hn : 1 ≤ n) :
    (∀ l ∈ splitLines ((patchEnv uni appURL dbPath)^[n] text), key.isPrefixOf l = false) ∧
    List.Sublist
      (((splitLines text).filter (fun l => key.isPrefixOf l)).map (fun l => '#' :: l))
      (splitLines ((patchEnv uni appURL dbPath)^[n] text)) := by
  obtain ⟨m, rfl⟩ : ∃ m, n = m + 1 := ⟨n - 1, by omega⟩
  constructor
  · rw [Function.iterate_succ_apply']
    exact patchEnv_clear uni appURL dbPath _ hk
  · exact patchEnv_iterate_sublist_commented uni appURL dbPath text hk m

set_option maxRecDepth 100000 in
/-- C5 at a concrete input: two patches of `FOO=1`, `DB_PORT=3306`. -/
theorem patchEnv_comments_out_witness :
    (∀ l ∈ splitLines ((patchEnv asciiClass "https://a-b.test".toList "/w/db".toList)^[2]
        "FOO=1\nDB_PORT=3306".toList), "DB_PORT=".toList.isPrefixOf l = false) ∧
    List.Sublist
      (((splitLines "FOO=1\nDB_PORT=3306".toList).filter
        (fun l => "DB_PORT=".toList.isPrefixOf l)).map (fun l => '#' :: l))
      (splitLines ((patchEnv asciiClass "https://a-b.test".toList "/w/db".toList)^[2]
        "FOO=1\nDB_PORT=3306".toList)) :=
  patchEnv_comments_out asciiClass "https://a-b.test".toList "/w/db".toList
    "FOO=1\nDB_PORT=3306".toList "DB_PORT=".toList (by decide) 2 (by decide)

set_option maxRecDepth 100000 in
/-- C6, counterexample. With the repository folder `my`, line feed, `app` the
URL has two lines, and the replaced `APP_URL=` line pushes the untouched line
`KEEP=1` from index 1 to index 2. -/
theorem patchEnv_frame_index_shift :
    (splitLines "APP_URL=x\nKEEP=1".toList)[1]? = some "KEEP=1".toList ∧
    (splitLines (patchEnv asciiClass (appURLOf (herdSiteName "my\napp".toList "b".toList))
      "/w/database/database.sqlite".toList "APP_URL=x\nKEEP=1".toList))[1]? =
      some "app-b.test".toList ∧
    (splitLines (patchEnv asciiClass (appURLOf (herdSiteName "my\napp".toList "b".toList))
      "/w/database/database.sqlite".toList "APP_URL=x\nKEEP=1".toList))[2]? =
      some "KEEP=1".toList := by
  decide

/-- C6, amended. The patch never deletes a line and leaves the lines outside
its anchors alone: for every URL and database path the output has at least as
many lines as the input, and the input lines that begin with none of the seven
keys are lines of the output, unchanged and in the same relative order; when
the URL and the database path have no line feed, each of them also stands at
the same index. -/
theorem patchEnv_frame (uni : Char → Bool) (appURL dbPath text : Text) :
    (splitLines text).length ≤ (splitLines (patchEnv uni appURL dbPath text)).length ∧
    List.Sublist
      ((splitLines text).filter
        (fun l => (setKeys ++ commentKeys).all fun k => !k.isPrefixOf l))
      (splitLines (patchEnv uni appURL dbPath text)) ∧
    (∀ l ∈ splitLines text, (∀ k ∈ setKeys ++ commentKeys, k.isPrefixOf l = false) →
      l ∈ splitLines (patchEnv uni appURL dbPath text)) ∧
    ('\n' ∉ appURL → '\n' ∉ dbPath → ∀ (i : Nat) (l : Text),
      (splitLines text)[i]? = some l →
      (∀ k ∈ setKeys ++ commentKeys, k.isPrefixOf l = false) →
      (splitLines (patchEnv uni appURL dbPath text))[i]? = some l) := by
  refine ⟨patchEnv_length uni appURL dbPath text,
    patchEnv_sublist_frame uni appURL dbPath text, ?_, ?_⟩
  · intro l hl h
    exact patchEnv_mem uni appURL dbPath text hl h
  · intro ha hd i l hi h
    rw [lines_patchEnv_getElem uni ha hd _ hi, patchLine_of_no_key uni appURL dbPath h]

set_option maxRecDepth 100000 in
/-- C6 at a concrete input: `FOO=1` stays at index 1. -/
theorem patchEnv_frame_witness :
    (splitLines (patchEnv asciiClass "https://a-b.test".toList "/w/db".toList
      "APP_URL=x\nFOO=1\nDB_HOST=h".toList))[1]? = some "FOO=1".toList :=
  (patchEnv_frame asciiClass "https://a-b.test".toList "/w/db".toList
    "APP_URL=x\nFOO=1\nDB_HOST=h".toList).2.2.2 (by decide) (by decide) 1 "FOO=1".toList
    (by decide) (by decide)

/-! ## Claims -/

set_option maxRecDepth 100000 in
/-- C1. Patching twice differs from patching once when the branch name has a
`$`: for the folder `myapp` and the branch `fix$1`, the first patch of a text
without the keys appends the lines with the literal values, and the second
patch replaces them with the values from which `$1` was expanded away. -/
theorem patchEnv_twice_differs_on_dollar :
    patchEnv asciiClass (appURLOf (herdSiteName "myapp".toList "fix$1".toList))
        "/srv/myapp/.worktrees/fix$1/database/database.sqlite".toList
        "APP_NAME=Laravel".toList =
      ("APP_NAME=Laravel\nAPP_URL=https://myapp-fix$1.test\nDB_CONNECTION=sqlite\n" ++
        "DB_DATABASE=/srv/myapp/.worktrees/fix$1/database/database.sqlite").toList ∧
    patchEnv asciiClass (appURLOf (herdSiteName "myapp".toList "fix$1".toList))
        "/srv/myapp/.worktrees/fix$1/database/database.sqlite".toList
        (patchEnv asciiClass (appURLOf (herdSiteName "myapp".toList "fix$1".toList))
          "/srv/myapp/.worktrees/fix$1/database/database.sqlite".toList
          "APP_NAME=Laravel".toList) =
      ("APP_NAME=Laravel\nAPP_URL=https://myapp-fix.test\nDB_CONNECTION=sqlite\n" ++
        "DB_DATABASE=/srv/myapp/.worktrees/fix/database/database.sqlite").toList ∧
    patchEnv asciiClass (appURLOf (herdSiteName "myapp".toList "fix$1".toList))
        "/srv/myapp/.worktrees/fix$1/database/database.sqlite".toList
        (patchEnv asciiClass (appURLOf (herdSiteName "myapp".toList "fix$1".toList))
          "/srv/myapp/.worktrees/fix$1/database/database.sqlite".toList
          "APP_NAME=Laravel".toList) ≠
      patchEnv asciiClass (appURLOf (herdSiteName "myapp".toList "fix$1".toList))
        "/srv/myapp/.worktrees/fix$1/database/database.sqlite".toList
        "APP_NAME=Laravel".toList := by
  decide

set_option maxRecDepth 100000 in
/-- C2, counterexample. A text with two `APP_URL=` lines keeps two of them:
both are replaced, none is removed. And with the repository folder
`my`, line feed, `APP_URL=app` the single appended URL spans two
lines that both begin with `APP_URL=`. -/
theorem patchEnv_keeps_duplicate_key :
    patchEnv asciiClass "https://myapp-b.test".toList "/w/database/database.sqlite".toList
        "APP_URL=a\nAPP_URL=b".toList =
      ("APP_URL=https://myapp-b.test\nAPP_URL=https://myapp-b.test\n" ++
        "DB_CONNECTION=sqlite\nDB_DATABASE=/w/database/database.sqlite").toList ∧
    countLines "APP_URL=".toList
      (patchEnv asciiClass "https://myapp-b.test".toList "/w/database/database.sqlite".toList
        "APP_URL=a\nAPP_URL=b".toList) = 2 ∧
    countLines "APP_URL=".toList "APP_NAME=Laravel".toList = 0 ∧
    countLines "APP_URL=".toList
      (patchEnv asciiClass (appURLOf (herdSiteName "my\nAPP_URL=app".toList "b".toList))
        "/w/database/database.sqlite".toList "APP_NAME=Laravel".toList) = 2 := by
  decide

/-- C2, amended. For a URL and a database path without a line feed and each
key of `APP_URL=`, `DB_CONNECTION=`, `DB_DATABASE=`: the patched text has as
many lines that begin with the key as the input, and one if the input has
none; every input line that begins with the key is replaced, at its index, by
the key followed by the expansion of its value; no other input line comes to
begin with the key; and when no input line begins with the key the line
`KEY=value` is appended after the input lines. -/
theorem patchEnv_key_lines (uni : Char → Bool) (appURL dbPath text key : Text)
    (hk : key ∈ setKeys) (ha : '\n' ∉ appURL) (hd : '\n' ∉ dbPath) :
    countLines key (patchEnv uni appURL dbPath text) = max 1 (countLines key text) ∧
    (∀ (i : Nat) (l : Text), (splitLines text)[i]? = some l → key.isPrefixOf l = true →
      (splitLines (patchEnv uni appURL dbPath text))[i]? =
        some (key ++ expand uni (setValue appURL dbPath key) l)) ∧
    (∀ (i : Nat) (l : Text), (splitLines text)[i]? = some l → key.isPrefixOf l = false →
      ∃ l', (splitLines (patchEnv uni appURL dbPath text))[i]? = some l' ∧
        key.isPrefixOf l' = false) ∧
    (countLines key text = 0 →
      ∃ j, (splitLines text).length ≤ j ∧
        (splitLines (patchEnv uni appURL dbPath text))[j]? =
          some (key ++ setValue appURL dbPath key)) := by
  have h3 : ∀ (i : Nat) (l : Text), (splitLines text)[i]? = some l →
      key.isPrefixOf l = false →
      ∃ l', (splitLines (patchEnv uni appURL dbPath text))[i]? = some l' ∧
        key.isPrefixOf l' = false := by
    intro i l hi hp
    refine ⟨patchLine uni appURL dbPath l, lines_patchEnv_getElem uni ha hd _ hi, ?_⟩
    rw [patchLine_neutral uni appURL dbPath hk]
    exact hp
  refine ⟨?_, ?_, h3, ?_⟩
  · unfold countLines
    rw [lines_patchEnv uni ha hd]
    exact countP_patchLines uni appURL dbPath _ hk
  · intro i l hi hp
    rw [lines_patchEnv_getElem uni ha hd _ hi, patchLine_set_key uni appURL dbPath hk hp]
  · intro hz
    unfold countLines at hz
    have hmem : key ++ setValue appURL dbPath key ∈
        splitLines (patchEnv uni appURL dbPath text) := by
      rw [lines_patchEnv uni ha hd]
      exact patchLines_appended uni appURL dbPath hk hz
    obtain ⟨j, hj⟩ := List.getElem?_of_mem hmem
    refine ⟨j, ?_, hj⟩
    by_contra hlt
    have hlt' : j < (splitLines text).length := Nat.lt_of_not_le hlt
    have hin : (splitLines text)[j]? = some ((splitLines text)[j]) :=
      List.getElem?_eq_getElem hlt'
    have hno : key.isPrefixOf ((splitLines text)[j]) = false := by
      rw [List.countP_eq_zero] at hz
      exact Bool.eq_false_iff.2 (hz _ (List.getElem_mem hlt'))
    obtain ⟨l', hl', hp'⟩ := h3 j _ hin hno
    rw [hj] at hl'
    have : key ++ setValue appURL dbPath key = l' := Option.some.inj hl'
    rw [← this, prefix_self_append] at hp'
    exact absurd hp' (by decide)

set_option maxRecDepth 100000 in
/-- C2 at a concrete input: the `DB_CONNECTION=` line of a two-line text. -/
theorem patchEnv_key_lines_witness :
    countLines "DB_CONNECTION=".toList
        (patchEnv asciiClass "https://myapp-b.test".toList "/w/db.sqlite".toList
          "APP_URL=a\nDB_CONNECTION=mysql".toList) =
      max 1 (countLines "DB_CONNECTION=".toList "APP_URL=a\nDB_CONNECTION=mysql".toList) ∧
    (splitLines (patchEnv asciiClass "https://myapp-b.test".toList "/w/db.sqlite".toList
        "APP_URL=a\nDB_CONNECTION=mysql".toList))[1]? =
      some ("DB_CONNECTION=".toList ++
        expand asciiClass
          (setValue "https://myapp-b.test".toList "/w/db.sqlite".toList
            "DB_CONNECTION=".toList)
          "DB_CONNECTION=mysql".toList) :=
  ⟨(patchEnv_key_lines asciiClass "https://myapp-b.test".toList "/w/db.sqlite".toList
      "APP_URL=a\nDB_CONNECTION=mysql".toList "DB_CONNECTION=".toList (by decide) (by decide)
      (by decide)).1,
    (patchEnv_key_lines asciiClass "https://myapp-b.test".toList "/w/db.sqlite".toList
      "APP_URL=a\nDB_CONNECTION=mysql".toList "DB_CONNECTION=".toList (by decide) (by decide)
      (by decide)).2.1 1 "DB_CONNECTION=mysql".toList (by decide) (by decide)⟩

theorem splitN2_of_dot (base suffix : Text) (h : '.' ∉ base) :
    splitN2 (base ++ '.' :: suffix) = [base, suffix] := by
  have hall : ∀ c ∈ base, (decide (c ≠ '.')) = true := by
    intro c hc
    simp only [decide_eq_true_eq]
    intro e
    exact h (e ▸ hc)
  unfold splitN2
  rw [List.dropWhile_append_of_pos hall, List.takeWhile_append_of_pos hall]
  simp

theorem splitN2_of_no_dot (repo : Text) (h : '.' ∉ repo) : splitN2 repo = [repo] := by
  have hall : ∀ c ∈ repo, (decide (c ≠ '.')) = true := by
    intro c hc
    simp only [decide_eq_true_eq]
    intro e
    exact h (e ▸ hc)
  unfold splitN2
  rw [List.dropWhile_eq_nil_iff.2 hall]

set_option maxRecDepth 100000 in
/-- C3. The site name depends on the folder name and the branch only: a folder
name `base.suffix`, with `base` free of dots, gives `base-branch.suffix`
(whatever dots `suffix` has), a folder name without a dot gives `repo-branch`;
`pushsilver.dev` with `feature-x` gives `pushsilver-feature-x.dev` and `myapp`
with `feature-x` gives `myapp-feature-x`. -/
theorem herdSiteName_spec (branch : Text) :
    (∀ base suffix : Text, '.' ∉ base →
      herdSiteName (base ++ '.' :: suffix) branch = base ++ '-' :: branch ++ '.' :: suffix) ∧
    (∀ repo : Text, '.' ∉ repo → herdSiteName repo branch = repo ++ '-' :: branch) ∧
    herdSiteName "pushsilver.dev".toList "feature-x".toList =
      "pushsilver-feature-x.dev".toList ∧
    herdSiteName "myapp".toList "feature-x".toList = "myapp-feature-x".toList ∧
    herdSiteName "a.b.c".toList "x".toList = "a-x.b.c".toList := by
  refine ⟨?_, ?_, by decide, by decide, by decide⟩
  · intro base suffix h
    simp [herdSiteName, splitN2_of_dot base suffix h]
  · intro repo h
    simp [herdSiteName, splitN2_of_no_dot repo h]

set_option maxRecDepth 100000 in
theorem herdSiteName_spec_witness :
    herdSiteName ("my".toList ++ '.' :: "site.dev".toList) "b1".toList =
        "my".toList ++ '-' :: "b1".toList ++ '.' :: "site.dev".toList ∧
      herdSiteName "plain".toList "b1".toList = "plain".toList ++ '-' :: "b1".toList :=
  ⟨(herdSiteName_spec "b1".toList).1 "my".toList "site.dev".toList (by decide),
    (herdSiteName_spec "b1".toList).2.1 "plain".toList (by decide)⟩

set_option maxRecDepth 100000 in
/-- C4. With an existing `APP_URL=` line, the folder `myapp` and the branch
`fix$1`, the patched text has the line `APP_URL=https://myapp-fix.test` and no
line `APP_URL=https://myapp-fix$1.test`: the replacement expands `$1` away,
whereas a text without the key gets the literal line appended. -/
theorem patchEnv_appurl_dollar_expanded :
    splitLines
        (patchEnv asciiClass (appURLOf (herdSiteName "myapp".toList "fix$1".toList))
          "/w/database/database.sqlite".toList "APP_URL=http://localhost".toList) =
      ["APP_URL=https://myapp-fix.test".toList, "DB_CONNECTION=sqlite".toList,
        "DB_DATABASE=/w/database/database.sqlite".toList] ∧
    "APP_URL=".toList ++ appURLOf (herdSiteName "myapp".toList "fix$1".toList) ∉
      splitLines
        (patchEnv asciiClass (appURLOf (herdSiteName "myapp".toList "fix$1".toList))
          "/w/database/database.sqlite".toList "APP_URL=http://localhost".toList) ∧
    "APP_URL=".toList ++ appURLOf (herdSiteName "myapp".toList "fix$1".toList) ∈
      splitLines
        (patchEnv asciiClass (appURLOf (herdSiteName "myapp".toList "fix$1".toList))
          "/w/database/database.sqlite".toList "APP_NAME=Laravel".toList) := by
  decide

/-! ## Claims on the commands -/

theorem fieldsAux_nil_nil : fields [] = [] := rfl

/-- The loop body of `cmdList` on a line with at least two fields: path and
HEAD are the first two fields, the branch is the third field trimmed of
brackets, or the sentinel when there is no third field. -/
theorem parseWorktreeLine_of_fields (line f0 f1 : Text) (more : List Text)
    (h : fields line = f0 :: f1 :: more) :
    parseWorktreeLine line =
      some ⟨(match more with
        | [] => "(detached)".toList
        | f2 :: _ => trim f2 "[]".toList), f0, f1⟩ := by
  have hne : line ≠ [] := by
    intro e
    rw [e, fieldsAux_nil_nil] at h
    exact absurd h (by simp)
  unfold parseWorktreeLine
  rw [if_neg hne]
  simp only [h]
  cases more with
  | nil => simp
  | cons f2 rest => simp

set_option maxRecDepth 100000 in
/-- C7. The line `/p abc1234 (detached HEAD)` of a worktree listing is printed
with the branch `(detached`, not with the sentinel `(detached)`: the third
field is trimmed of brackets whether or not it is bracketed. A bracketed
third field gives the branch, and only a line of two fields gives the
sentinel. -/
theorem cmdList_detached_head_row :
    parseWorktreeLine "/p abc1234 (detached HEAD)".toList =
      some ⟨"(detached".toList, "/p".toList, "abc1234".toList⟩ ∧
    parseWorktreeLine "/p abc1234 [feature-x]".toList =
      some ⟨"feature-x".toList, "/p".toList, "abc1234".toList⟩ ∧
    parseWorktreeLine "/p abc1234".toList =
      some ⟨"(detached)".toList, "/p".toList, "abc1234".toList⟩ ∧
    cmdListRows "/p  abc1234 [main]\n/q  def5678 (detached HEAD)\n".toList =
      [⟨"main".toList, "/p".toList, "abc1234".toList⟩,
        ⟨"(detached".toList, "/q".toList, "def5678".toList⟩] := by
  decide

theorem stops_nil (w : World) : StopsAtFailure w [] := by
  intro i e hi
  simp at hi

theorem stops_singleton (w : World) (x : Effect) : StopsAtFailure w [x] := by
  intro i e _ hlt
  simp at hlt

theorem stops_cons (w : World) {x : Effect} {es : List Effect} (hx : w.succeeds x = true)
    (h : StopsAtFailure w es) : StopsAtFailure w (x :: es) := by
  intro i e hi hlt
  cases i with
  | zero =>
    have : x = e := by simpa using hi
    exact this ▸ hx
  | succ i =>
    apply h i e (by simpa using hi)
    simp only [List.length_cons] at hlt
    omega

theorem setupDatabaseAndPatch_stops (w : World) (worktreePath branch : Text)
    (copied : Option Text) :
    StopsAtFailure w (setupDatabaseAndPatch w worktreePath branch copied).1 := by
  unfold setupDatabaseAndPatch
  simp only []
  split
  · exact stops_singleton w _
  · rename_i h1
    have h1' : w.succeeds (.mkdirAll (w.join [worktreePath, "database".toList])) = true := by
      simpa using h1
    split
    · exact stops_cons w h1' (stops_singleton w _)
    · rename_i h2
      have h2' : w.succeeds (.createFile
          (w.join [w.join [worktreePath, "database".toList], "database.sqlite".toList])) =
          true := by
        simpa using h2
      split
      · exact stops_cons w h1' (stops_singleton w _)
      · split
        · split
          · exact stops_cons w h1' (stops_singleton w _)
          · exact stops_cons w h1' (stops_cons w h2' (stops_singleton w _))
        · exact stops_cons w h1' (stops_singleton w _)

theorem setupEnvironment_stops (w : World) (worktreePath branch : Text) :
    StopsAtFailure w (setupEnvironment w worktreePath branch).1 := by
  unfold setupEnvironment
  simp only []
  have hcopy : (copyEnvExample w worktreePath).1 = [] ∨
      ∃ x, (copyEnvExample w worktreePath).1 = [x] ∧
        (copyEnvExample w worktreePath).2.1 = w.succeeds x := by
    unfold copyEnvExample
    simp only []
    split
    · split
      · exact Or.inl rfl
      · exact Or.inr ⟨_, rfl, rfl⟩
    · exact Or.inl rfl
  split
  · rcases hcopy with h | ⟨x, h, _⟩
    · rw [h]
      exact stops_nil w
    · rw [h]
      exact stops_singleton w x
  · rename_i hok
    rcases hcopy with h | ⟨x, h, hx⟩
    · rw [h]
      exact setupDatabaseAndPatch_stops w worktreePath branch _
    · rw [h]
      apply stops_cons w _ (setupDatabaseAndPatch_stops w worktreePath branch _)
      rw [← hx]
      simpa using hok

/-! ## The environment setup ends at its first failure -/

theorem setupEnvironment_template_read_fails (w : World) (worktreePath branch : Text)
    (h1 : w.stat (envPathOf w worktreePath) = Stat.notExist)
    (h2 : (w.stat (envExamplePathOf w worktreePath)).ok = true)
    (h3 : w.readFile (envExamplePathOf w worktreePath) = none) :
    setupEnvironment w worktreePath branch = ([], false) := by
  have hc : copyEnvExample w worktreePath = ([], false, none) := by
    unfold envPathOf at h1
    unfold envExamplePathOf at h2 h3
    unfold copyEnvExample
    simp only []
    rw [if_pos ⟨h1, h2⟩, h3]
  unfold setupEnvironment
  simp only [hc, Bool.not_false, if_true]

theorem setupEnvironment_template_write_fails (w : World) (worktreePath branch input : Text)
    (h1 : w.stat (envPathOf w worktreePath) = Stat.notExist)
    (h2 : (w.stat (envExamplePathOf w worktreePath)).ok = true)
    (h3 : w.readFile (envExamplePathOf w worktreePath) = some input)
    (h4 : w.succeeds (.writeFile (envPathOf w worktreePath) input) = false) :
    setupEnvironment w worktreePath branch =
      ([.writeFile (envPathOf w worktreePath) input], false) := by
  have hc : copyEnvExample w worktreePath =
      ([.writeFile (envPathOf w worktreePath) input], false, some input) := by
    unfold envPathOf at h1 h4 ⊢
    unfold envExamplePathOf at h2 h3
    unfold copyEnvExample
    simp only []
    rw [if_pos ⟨h1, h2⟩, h3]
    simp only [h4]
  unfold setupEnvironment
  simp only [hc, Bool.not_false, if_true]

theorem setupEnvironment_of_copy_ok (w : World) (worktreePath branch : Text)
    (h : (copyEnvExample w worktreePath).2.1 = true) :
    setupEnvironment w worktreePath branch =
      ((copyEnvExample w worktreePath).1 ++
          (setupDatabaseAndPatch w worktreePath branch (copyEnvExample w worktreePath).2.2).1,
        (setupDatabaseAndPatch w worktreePath branch (copyEnvExample w worktreePath).2.2).2) := by
  unfold setupEnvironment
  simp only [h, Bool.not_true, Bool.false_eq_true, if_false]

theorem setupDatabaseAndPatch_mkdir_fails (w : World) (worktreePath branch : Text)
    (copied : Option Text)
    (h : w.succeeds (.mkdirAll (dbDirOf w worktreePath)) = false) :
    setupDatabaseAndPatch w worktreePath branch copied =
      ([.mkdirAll (dbDirOf w worktreePath)], false) := by
  unfold dbDirOf at h ⊢
  simp only [setupDatabaseAndPatch, h, Bool.not_false, if_true]

theorem setupDatabaseAndPatch_create_fails (w : World) (worktreePath branch : Text)
    (copied : Option Text)
    (h1 : w.succeeds (.mkdirAll (dbDirOf w worktreePath)) = true)
    (h2 : w.succeeds (.createFile (dbPathOf w worktreePath)) = false) :
    setupDatabaseAndPatch w worktreePath branch copied =
      ([.mkdirAll (dbDirOf w worktreePath), .createFile (dbPathOf w worktreePath)], false) := by
  unfold dbPathOf at h2 ⊢
  unfold dbDirOf at h1 h2 ⊢
  simp only [setupDatabaseAndPatch, h1, h2, Bool.not_true, Bool.false_eq_true, if_false,
    Bool.not_false, if_true]

theorem setupDatabaseAndPatch_site_fails (w : World) (worktreePath branch : Text)
    (copied : Option Text)
    (h1 : w.succeeds (.mkdirAll (dbDirOf w worktreePath)) = true)
    (h2 : w.succeeds (.createFile (dbPathOf w worktreePath)) = true)
    (h3 : getHerdSiteName w branch = none) :
    setupDatabaseAndPatch w worktreePath branch copied =
      ([.mkdirAll (dbDirOf w worktreePath), .createFile (dbPathOf w worktreePath)], false) := by
  unfold dbPathOf at h2 ⊢
  unfold dbDirOf at h1 h2 ⊢
  simp only [setupDatabaseAndPatch, h1, h2, h3, Bool.not_true, Bool.false_eq_true, if_false]

theorem setupDatabaseAndPatch_read_fails (w : World) (worktreePath branch siteName : Text)
    (copied : Option Text)
    (h1 : w.succeeds (.mkdirAll (dbDirOf w worktreePath)) = true)
    (h2 : w.succeeds (.createFile (dbPathOf w worktreePath)) = true)
    (h3 : getHerdSiteName w branch = some siteName)
    (h4 : copied.isSome = true ∨ (w.stat (envPathOf w worktreePath)).ok = true)
    (h5 : (copied <|> w.readFile (envPathOf w worktreePath)) = none) :
    setupDatabaseAndPatch w worktreePath branch copied =
      ([.mkdirAll (dbDirOf w worktreePath), .createFile (dbPathOf w worktreePath)], false) := by
  unfold dbPathOf at h2 ⊢
  unfold dbDirOf at h1 h2 ⊢
  unfold envPathOf at h4 h5
  simp only [setupDatabaseAndPatch, h1, h2, h3, Bool.not_true, Bool.false_eq_true, if_false,
    if_pos h4, h5]

theorem setupDatabaseAndPatch_patches (w : World) (worktreePath branch siteName : Text)
    (copied : Option Text) (envContent : Text)
    (h1 : w.succeeds (.mkdirAll (dbDirOf w worktreePath)) = true)
    (h2 : w.succeeds (.createFile (dbPathOf w worktreePath)) = true)
    (h3 : getHerdSiteName w branch = some siteName)
    (h4 : copied.isSome = true ∨ (w.stat (envPathOf w worktreePath)).ok = true)
    (h5 : (copied <|> w.readFile (envPathOf w worktreePath)) = some envContent) :
    setupDatabaseAndPatch w worktreePath branch copied =
      ([.mkdirAll (dbDirOf w worktreePath), .createFile (dbPathOf w worktreePath),
          .writeFile (envPathOf w worktreePath)
            (patchEnv w.uni (appURLOf siteName) (dbPathOf w worktreePath) envContent)],
        w.succeeds (.writeFile (envPathOf w worktreePath)
          (patchEnv w.uni (appURLOf siteName) (dbPathOf w worktreePath) envContent))) := by
  unfold dbPathOf at h2 ⊢
  unfold dbDirOf at h1 h2 ⊢
  unfold envPathOf at h4 h5 ⊢
  simp only [setupDatabaseAndPatch, h1, h2, h3, Bool.not_true, Bool.false_eq_true, if_false,
    if_pos h4, h5]

theorem setupDatabaseAndPatch_no_env (w : World) (worktreePath branch siteName : Text)
    (copied : Option Text)
    (h1 : w.succeeds (.mkdirAll (dbDirOf w worktreePath)) = true)
    (h2 : w.succeeds (.createFile (dbPathOf w worktreePath)) = true)
    (h3 : getHerdSiteName w branch = some siteName)
    (h4 : ¬(copied.isSome = true ∨ (w.stat (envPathOf w worktreePath)).ok = true)) :
    setupDatabaseAndPatch w worktreePath branch copied =
      ([.mkdirAll (dbDirOf w worktreePath), .createFile (dbPathOf w worktreePath)], true) := by
  unfold dbPathOf at h2 ⊢
  unfold dbDirOf at h1 h2 ⊢
  unfold envPathOf at h4
  simp only [setupDatabaseAndPatch, h1, h2, h3, Bool.not_true, Bool.false_eq_true, if_false,
    if_neg h4]


theorem setupEnvironment_of_copy_failed (w : World) (worktreePath branch : Text)
    (h : (copyEnvExample w worktreePath).2.1 = false) :
    setupEnvironment w worktreePath branch = ((copyEnvExample w worktreePath).1, false) := by
  unfold setupEnvironment
  simp only [h, Bool.not_false, if_true]

/-- The patch is written only when the copy block, the directory, the
database file, the site name and the reading of `.env` all went through. -/
theorem setupEnvironment_patch_only_if (w : World) (worktreePath branch content : Text)
    (h : (setupEnvironment w worktreePath branch).1 =
      (copyEnvExample w worktreePath).1 ++
        [.mkdirAll (dbDirOf w worktreePath), .createFile (dbPathOf w worktreePath),
          .writeFile (envPathOf w worktreePath) content]) :
    (copyEnvExample w worktreePath).2.1 = true ∧
    w.succeeds (.mkdirAll (dbDirOf w worktreePath)) = true ∧
    w.succeeds (.createFile (dbPathOf w worktreePath)) = true ∧
    ∃ siteName envContent, getHerdSiteName w branch = some siteName ∧
      ((copyEnvExample w worktreePath).2.2 <|> w.readFile (envPathOf w worktreePath)) =
        some envContent ∧
      content = patchEnv w.uni (appURLOf siteName) (dbPathOf w worktreePath) envContent := by
  by_cases hc : (copyEnvExample w worktreePath).2.1 = true
  swap
  · rw [setupEnvironment_of_copy_failed w worktreePath branch (by simpa using hc)] at h
    have := congrArg List.length h
    simp at this
  rw [setupEnvironment_of_copy_ok w worktreePath branch hc] at h
  have h' := List.append_cancel_left h
  by_cases h1 : w.succeeds (.mkdirAll (dbDirOf w worktreePath)) = true
  swap
  · rw [setupDatabaseAndPatch_mkdir_fails w worktreePath branch _ (by simpa using h1)] at h'
    have := congrArg List.length h'
    simp at this
  by_cases h2 : w.succeeds (.createFile (dbPathOf w worktreePath)) = true
  swap
  · rw [setupDatabaseAndPatch_create_fails w worktreePath branch _ h1 (by simpa using h2)] at h'
    have := congrArg List.length h'
    simp at this
  cases h3 : getHerdSiteName w branch with
  | none =>
    rw [setupDatabaseAndPatch_site_fails w worktreePath branch _ h1 h2 h3] at h'
    have := congrArg List.length h'
    simp at this
  | some siteName =>
    by_cases h4 : (copyEnvExample w worktreePath).2.2.isSome = true ∨
        (w.stat (envPathOf w worktreePath)).ok = true
    swap
    · rw [setupDatabaseAndPatch_no_env w worktreePath branch siteName _ h1 h2 h3 h4] at h'
      have := congrArg List.length h'
      simp at this
    cases h5 : ((copyEnvExample w worktreePath).2.2 <|> w.readFile (envPathOf w worktreePath)) with
    | none =>
      rw [setupDatabaseAndPatch_read_fails w worktreePath branch siteName _ h1 h2 h3 h4 h5] at h'
      have := congrArg List.length h'
      simp at this
    | some envContent =>
      rw [setupDatabaseAndPatch_patches w worktreePath branch siteName _ envContent h1 h2 h3 h4
        h5] at h'
      refine ⟨hc, h1, h2, siteName, envContent, rfl, rfl, ?_⟩
      simp only [List.cons.injEq, Effect.writeFile.injEq, true_and, and_true] at h'
      exact h'.symm

set_option maxRecDepth 100000 in
/-- C8, counterexample. With an existing `.env`, a failure to create the
`database` directory ends the environment setup before the patch: `.env` is
not written, while the later steps run. In the same world with the directory
created, `.env` is patched. -/
theorem provisionWorktree_mkdir_failure_skips_patch :
    (provisionWorktree mkdirFailsWorld [] "/srv/myapp/.worktrees/feature-x".toList
        "feature-x".toList).1 =
      [.mkdirAll "/srv/myapp/.worktrees/feature-x/database".toList,
        .composerInstall "/srv/myapp/.worktrees/feature-x".toList,
        .prompt "Generate application key? [Y/n] ".toList,
        .keyGenerate "/srv/myapp/.worktrees/feature-x".toList,
        .prompt "Run migrations with seeding? [y/N] ".toList,
        .herdLink "/srv/myapp/.worktrees/feature-x".toList "myapp-feature-x".toList,
        .herdSecure "myapp-feature-x".toList,
        .herdRestart] ∧
    (provisionWorktree sampleWorld [] "/srv/myapp/.worktrees/feature-x".toList
        "feature-x".toList).1 =
      [.mkdirAll "/srv/myapp/.worktrees/feature-x/database".toList,
        .createFile "/srv/myapp/.worktrees/feature-x/database/database.sqlite".toList,
        .writeFile "/srv/myapp/.worktrees/feature-x/.env".toList
          ("APP_URL=https://myapp-feature-x.test\n#DB_HOST=127.0.0.1\nDB_CONNECTION=sqlite\n" ++
            "DB_DATABASE=/srv/myapp/.worktrees/feature-x/database/database.sqlite").toList,
        .composerInstall "/srv/myapp/.worktrees/feature-x".toList,
        .prompt "Generate application key? [Y/n] ".toList,
        .keyGenerate "/srv/myapp/.worktrees/feature-x".toList,
        .prompt "Run migrations with seeding? [y/N] ".toList,
        .herdLink "/srv/myapp/.worktrees/feature-x".toList "myapp-feature-x".toList,
        .herdSecure "myapp-feature-x".toList,
        .herdRestart] := by
  decide

/-- C8, amended. Whatever the outcomes, `provisionWorktree` returns no error
and, after the environment setup, invokes the dependency install, asks for the
key generation and the migration (running each on a yes), invokes `herd link`
whenever the site name is known and Herd is installed, and asks for the
frontend server whenever `package.json` exists. The environment setup itself is
one step that ends at its first failure: a failed read or write of the
template, a failed creation of the database directory or file, an unknown site
name or an unreadable `.env` each end it with an error and with nothing done
after the failure, and `.env` is patched exactly when all of them went
through. -/
theorem provisionWorktree_steps (w : World) (answers : List Text)
    (worktreePath branch : Text) :
    ((provisionWorktree w answers worktreePath branch).2 = none ∧
      (setupEnvironment w worktreePath branch).1 <+:
        (provisionWorktree w answers worktreePath branch).1 ∧
      StopsAtFailure w (setupEnvironment w worktreePath branch).1 ∧
      Effect.composerInstall worktreePath ∈
        (provisionWorktree w answers worktreePath branch).1 ∧
      Effect.prompt (confirmPrompt "Generate application key?".toList true) ∈
        (provisionWorktree w answers worktreePath branch).1 ∧
      (confirm w (answers.getD 0 []) true = true →
        Effect.keyGenerate worktreePath ∈
          (provisionWorktree w answers worktreePath branch).1) ∧
      Effect.prompt (confirmPrompt "Run migrations with seeding?".toList false) ∈
        (provisionWorktree w answers worktreePath branch).1 ∧
      (confirm w (answers.getD 1 []) false = true →
        Effect.migrateSeed worktreePath ∈
          (provisionWorktree w answers worktreePath branch).1) ∧
      (∀ siteName, getHerdSiteName w branch = some siteName → herdExists w = true →
        Effect.herdLink worktreePath siteName ∈
          (provisionWorktree w answers worktreePath branch).1) ∧
      ((w.stat (w.join [worktreePath, "package.json".toList])).ok = true →
        Effect.prompt (confirmPrompt "Run 'npm run dev'?".toList false) ∈
          (provisionWorktree w answers worktreePath branch).1 ∧
        (confirm w (answers.getD 2 []) false = true →
          Effect.npmRunDev worktreePath ∈
            (provisionWorktree w answers worktreePath branch).1))) ∧
    ((w.stat (envPathOf w worktreePath) = Stat.notExist →
        (w.stat (envExamplePathOf w worktreePath)).ok = true →
        w.readFile (envExamplePathOf w worktreePath) = none →
        setupEnvironment w worktreePath branch = ([], false)) ∧
      (∀ input, w.stat (envPathOf w worktreePath) = Stat.notExist →
        (w.stat (envExamplePathOf w worktreePath)).ok = true →
        w.readFile (envExamplePathOf w worktreePath) = some input →
        w.succeeds (.writeFile (envPathOf w worktreePath) input) = false →
        setupEnvironment w worktreePath branch =
          ([.writeFile (envPathOf w worktreePath) input], false)) ∧
      ((copyEnvExample w worktreePath).2.1 = true →
        w.succeeds (.mkdirAll (dbDirOf w worktreePath)) = false →
        setupEnvironment w worktreePath branch =
          ((copyEnvExample w worktreePath).1 ++ [.mkdirAll (dbDirOf w worktreePath)], false)) ∧
      ((copyEnvExample w worktreePath).2.1 = true →
        w.succeeds (.mkdirAll (dbDirOf w worktreePath)) = true →
        w.succeeds (.createFile (dbPathOf w worktreePath)) = false →
        setupEnvironment w worktreePath branch =
          ((copyEnvExample w worktreePath).1 ++
            [.mkdirAll (dbDirOf w worktreePath), .createFile (dbPathOf w worktreePath)],
            false)) ∧
      ((copyEnvExample w worktreePath).2.1 = true →
        w.succeeds (.mkdirAll (dbDirOf w worktreePath)) = true →
        w.succeeds (.createFile (dbPathOf w worktreePath)) = true →
        getHerdSiteName w branch = none →
        setupEnvironment w worktreePath branch =
          ((copyEnvExample w worktreePath).1 ++
            [.mkdirAll (dbDirOf w worktreePath), .createFile (dbPathOf w worktreePath)],
            false)) ∧
      (∀ siteName, (copyEnvExample w worktreePath).2.1 = true →
        w.succeeds (.mkdirAll (dbDirOf w worktreePath)) = true →
        w.succeeds (.createFile (dbPathOf w worktreePath)) = true →
        getHerdSiteName w branch = some siteName →
        ((copyEnvExample w worktreePath).2.2.isSome = true ∨
          (w.stat (envPathOf w worktreePath)).ok = true) →
        ((copyEnvExample w worktreePath).2.2 <|> w.readFile (envPathOf w worktreePath)) =
          none →
        setupEnvironment w worktreePath branch =
          ((copyEnvExample w worktreePath).1 ++
            [.mkdirAll (dbDirOf w worktreePath), .createFile (dbPathOf w worktreePath)],
            false)) ∧
      (∀ siteName envContent, (copyEnvExample w worktreePath).2.1 = true →
        w.succeeds (.mkdirAll (dbDirOf w worktreePath)) = true →
        w.succeeds (.createFile (dbPathOf w worktreePath)) = true →
        getHerdSiteName w branch = some siteName →
        ((copyEnvExample w worktreePath).2.2.isSome = true ∨
          (w.stat (envPathOf w worktreePath)).ok = true) →
        ((copyEnvExample w worktreePath).2.2 <|> w.readFile (envPathOf w worktreePath)) =
          some envContent →
        setupEnvironment w worktreePath branch =
          ((copyEnvExample w worktreePath).1 ++
            [.mkdirAll (dbDirOf w worktreePath), .createFile (dbPathOf w worktreePath),
              .writeFile (envPathOf w worktreePath)
                (patchEnv w.uni (appURLOf siteName) (dbPathOf w worktreePath) envContent)],
            w.succeeds (.writeFile (envPathOf w worktreePath)
              (patchEnv w.uni (appURLOf siteName) (dbPathOf w worktreePath) envContent)))) ∧
      (∀ content, (setupEnvironment w worktreePath branch).1 =
          (copyEnvExample w worktreePath).1 ++
            [.mkdirAll (dbDirOf w worktreePath), .createFile (dbPathOf w worktreePath),
              .writeFile (envPathOf w worktreePath) content] →
        (copyEnvExample w worktreePath).2.1 = true ∧
        w.succeeds (.mkdirAll (dbDirOf w worktreePath)) = true ∧
        w.succeeds (.createFile (dbPathOf w worktreePath)) = true ∧
        ∃ siteName envContent, getHerdSiteName w branch = some siteName ∧
          ((copyEnvExample w worktreePath).2.2 <|> w.readFile (envPathOf w worktreePath)) =
            some envContent ∧
          content =
            patchEnv w.uni (appURLOf siteName) (dbPathOf w worktreePath) envContent)) := by
  refine ⟨⟨rfl, ?_, setupEnvironment_stops w worktreePath branch, ?_, ?_, ?_, ?_, ?_, ?_, ?_⟩,
    ⟨?_, ?_, ?_, ?_, ?_, ?_, ?_, ?_⟩⟩
  · unfold provisionWorktree
    simp only [List.append_assoc]
    exact List.prefix_append _ _
  · simp [provisionWorktree]
  · simp [provisionWorktree]
  · intro h
    simp only [List.getD_eq_getElem?_getD] at h
    simp [provisionWorktree, h]
  · simp [provisionWorktree]
  · intro h
    simp only [List.getD_eq_getElem?_getD] at h
    simp [provisionWorktree, h]
  · intro siteName hs hh
    have : Effect.herdLink worktreePath siteName ∈ (linkToHerd w worktreePath branch).1 := by
      unfold linkToHerd
      rw [hs]
      simp only [hh, Bool.not_true, Bool.false_eq_true, if_false]
      split <;> simp
    simp [provisionWorktree, this]
  · intro h
    constructor
    · simp only [provisionWorktree, h, if_true]
      simp
    · intro h2
      simp only [provisionWorktree, h, h2, if_true]
      simp
  · exact setupEnvironment_template_read_fails w worktreePath branch
  · intro input h1 h2 h3 h4
    exact setupEnvironment_template_write_fails w worktreePath branch input h1 h2 h3 h4
  · intro hc h1
    rw [setupEnvironment_of_copy_ok w worktreePath branch hc,
      setupDatabaseAndPatch_mkdir_fails w worktreePath branch _ h1]
  · intro hc h1 h2
    rw [setupEnvironment_of_copy_ok w worktreePath branch hc,
      setupDatabaseAndPatch_create_fails w worktreePath branch _ h1 h2]
  · intro hc h1 h2 h3
    rw [setupEnvironment_of_copy_ok w worktreePath branch hc,
      setupDatabaseAndPatch_site_fails w worktreePath branch _ h1 h2 h3]
  · intro siteName hc h1 h2 h3 h4 h5
    rw [setupEnvironment_of_copy_ok w worktreePath branch hc,
      setupDatabaseAndPatch_read_fails w worktreePath branch siteName _ h1 h2 h3 h4 h5]
  · intro siteName envContent hc h1 h2 h3 h4 h5
    rw [setupEnvironment_of_copy_ok w worktreePath branch hc,
      setupDatabaseAndPatch_patches w worktreePath branch siteName _ envContent h1 h2 h3 h4 h5]
  · intro content h
    exact setupEnvironment_patch_only_if w worktreePath branch content h

set_option maxRecDepth 100000 in
/-- C8 at a concrete world: the directory creation fails, the setup ends
there, and the site is linked and the key generated all the same. -/
theorem provisionWorktree_steps_witness :
    Effect.herdLink "/srv/myapp/.worktrees/feature-x".toList "myapp-feature-x".toList ∈
        (provisionWorktree mkdirFailsWorld [] "/srv/myapp/.worktrees/feature-x".toList
          "feature-x".toList).1 ∧
      Effect.keyGenerate "/srv/myapp/.worktrees/feature-x".toList ∈
        (provisionWorktree mkdirFailsWorld [] "/srv/myapp/.worktrees/feature-x".toList
          "feature-x".toList).1 ∧
      setupEnvironment mkdirFailsWorld "/srv/myapp/.worktrees/feature-x".toList
          "feature-x".toList =
        ((copyEnvExample mkdirFailsWorld "/srv/myapp/.worktrees/feature-x".toList).1 ++
          [.mkdirAll (dbDirOf mkdirFailsWorld "/srv/myapp/.worktrees/feature-x".toList)],
          false) :=
  ⟨(provisionWorktree_steps mkdirFailsWorld [] "/srv/myapp/.worktrees/feature-x".toList
      "feature-x".toList).1.2.2.2.2.2.2.2.2.1 "myapp-feature-x".toList (by decide) (by decide),
    (provisionWorktree_steps mkdirFailsWorld [] "/srv/myapp/.worktrees/feature-x".toList
      "feature-x".toList).1.2.2.2.2.2.1 (by decide),
    (provisionWorktree_steps mkdirFailsWorld [] "/srv/myapp/.worktrees/feature-x".toList
      "feature-x".toList).2.2.2.1 (by decide) (by decide)⟩

/-- C9. In a repository where the worktree of a non-empty branch exists, a
response that after lower-casing and trimming is neither `y` nor `yes` (the
empty response included) makes `cmdRemove` return exit code 0 having only
asked its question: no site unlink, no `git worktree remove`, no
`git worktree prune`, no operation that changes anything. -/
theorem cmdRemove_declined (w : World) (answers : List Text) (branch : Text)
    (hb : branch ≠ []) (hg : isGitRepo w = true) (hw : worktreeExists w branch = true)
    (hr : trimSpace (toLower w (answers.getD 0 [])) ≠ "y".toList ∧
      trimSpace (toLower w (answers.getD 0 [])) ≠ "yes".toList) :
    (cmdRemove w answers branch).2 = 0 ∧
    (∀ e ∈ (cmdRemove w answers branch).1, e.mutates = false) ∧
    (∀ site, Effect.herdUnlink site ∉ (cmdRemove w answers branch).1) ∧
    (∀ path, Effect.gitWorktreeRemove path ∉ (cmdRemove w answers branch).1) ∧
    Effect.gitWorktreePrune ∉ (cmdRemove w answers branch).1 := by
  have hc : confirm w (answers.getD 0 []) false = false := by
    unfold confirm
    simp only []
    split
    · rfl
    · rw [decide_eq_false hr.1, decide_eq_false hr.2]
      rfl
  obtain ⟨p, hp⟩ : ∃ p, getWorktreePath w branch = some p := by
    unfold worktreeExists at hw
    cases h : getWorktreePath w branch with
    | none => simp [h] at hw
    | some p => exact ⟨p, rfl⟩
  have hrun : cmdRemove w answers branch =
      ([.prompt (confirmPrompt
        ("Remove worktree at '".toList ++ p ++ "'?".toList) false)], 0) := by
    unfold cmdRemove
    simp only [hb, checkGitRepo, hg, hw, hp, hc, if_false, Bool.not_true, Bool.false_eq_true]
  rw [hrun]
  simp [Effect.mutates]

set_option maxRecDepth 100000 in
theorem cmdRemove_declined_witness :
    (cmdRemove sampleWorld ["No\n".toList] "feature-x".toList).2 = 0 ∧
      Effect.gitWorktreePrune ∉ (cmdRemove sampleWorld ["No\n".toList] "feature-x".toList).1 :=
  ⟨(cmdRemove_declined sampleWorld ["No\n".toList] "feature-x".toList (by decide) (by decide)
      (by decide) (by decide)).1,
    (cmdRemove_declined sampleWorld ["No\n".toList] "feature-x".toList (by decide) (by decide)
      (by decide) (by decide)).2.2.2.2⟩

/-- C10. In a repository where the worktree directory of a non-empty branch
already exists, `cmdNew` returns exit code 1 with no effect at all: no prompt,
no `git branch`, no `git worktree add`, no provisioning step. -/
theorem cmdNew_existing_worktree (w : World) (answers : List Text) (branch : Text)
    (hb : branch ≠ []) (hg : isGitRepo w = true) (hw : worktreeExists w branch = true) :
    cmdNew w answers branch = ([], 1) := by
  unfold cmdNew
  simp [hb, checkGitRepo, hg, hw]

set_option maxRecDepth 100000 in
theorem cmdNew_existing_worktree_witness :
    cmdNew sampleWorld ["y\n".toList] "feature-x".toList = ([], 1) :=
  cmdNew_existing_worktree sampleWorld ["y\n".toList] "feature-x".toList (by decide)
    (by decide) (by decide)

end Shepherd
